import Mathlib

set_option linter.unusedVariables false

/-!
Shallow embedding of the structured-unwinding prototype interpreter
(`experiments/block-unwind-prototype.py`): the machine state (operand
stack, call stack, block stack, unwind reason, instruction pointer),
the unwinding engine `unwind_block`, and one iteration of the
fetch-dispatch driver loop (`step`), translated from the source.

Python object identity for frame and block records (the source stores
direct references to the mutable frame lists and compares records with
these references inside) is modelled by unique serial numbers (`fid`
for frames, `bid` for blocks) drawn from counters carried in the
machine state, following the design's own recommendation of stable
arena indices in place of raw references.
-/

namespace BlockUnwind

/-- A cell of `code_memory`: the source keeps Python ints (opcodes and
numeric immediates) and strings (label definitions such as ".main" and
label operands such as "main#L1") in one flat list. -/
inductive Cell where
  | int (n : Int)
  | str (s : String)
deriving DecidableEq, Repr

/-- A runtime value on `data_stack`: ints and strings come from code
cells or user input, booleans are produced by `OP_CMP` (line 313). -/
inductive Value where
  | int (n : Int)
  | str (s : String)
  | bool (b : Bool)
deriving DecidableEq, Repr

/-- `OP_LOAD` pushes the raw code cell onto the data stack (line 251). -/
def cellVal : Cell → Value
  | .int n => .int n
  | .str s => .str s

-- the instruction set, source lines 5-23
def OP_LOAD : Int := 1
def OP_ADD : Int := 2
def OP_PRINT : Int := 3
def OP_JMP : Int := 4
def OP_JMPIF : Int := 5
def OP_CMP : Int := 6
def OP_SETUPCATCH : Int := 7
def OP_SETUPDEFER : Int := 8
def OP_UNWIND : Int := 9
def OP_DEFERCONTINUE : Int := 10
def OP_THROW : Int := 11
def OP_CALL : Int := 12
def OP_RET : Int := 13
def OP_WRITELOCAL : Int := 14
def OP_LOADLOCAL : Int := 15
def OP_GETNUMBER : Int := 16
def OP_EXIT : Int := 17
def OP_ABORT : Int := 18
def OP_DUP : Int := 19

-- unwind reasons, source lines 129-130
def UNWIND_EXCEPTION : Nat := 0
def UNWIND_RETURN : Nat := 1

/-- One call-stack entry, `[return_address, locals, block_marker]`
(source line 134 for the root frame, line 301 for `OP_CALL`), plus the
identity serial `fid`. The root frame's sentinel return address "err"
is modelled as `none`; jumping to it is a fault, as in the Python,
which crashes on the next fetch. `block_marker` is the identity of the
block that was on top of the block stack when the frame was created
(`none` for an empty stack, as for the root frame). -/
structure Frame where
  fid : Nat
  return_address : Option Nat
  locals : List Value
  block_marker : Option Nat
deriving DecidableEq, Repr

/-- One block-stack record, source line 167:
`(block_type, handler_offset, continue_offset, parent_block,
active_frame)`, plus the identity serial `bid`. `parent_block` (the
nearest same-kind block at creation time) is stored but never
consulted by any algorithm, exactly as in the source. -/
structure Block where
  bid : Nat
  block_type : String
  handler_offset : Nat
  continue_offset : Option Nat
  parent_block : Option Nat
  owner_fid : Nat
deriving DecidableEq, Repr

/-- The mutable interpreter globals, source lines 132-142. The list
heads are the Python list tails: `function_stack[-1]` and
`block_stack[-1]` are the heads here. `next_fid` and `next_bid` are
the serial-number supplies implementing object identity, and `input`
is the stream of numbers `OP_GETNUMBER` will read. -/
structure VM where
  data_stack : List Value
  function_stack : List Frame
  block_stack : List Block
  unwind_reason : Option Nat
  instruction_ptr : Nat
  next_fid : Nat
  next_bid : Nat
  input : List Int
deriving DecidableEq, Repr

/-- Source lines 148-151: `code_memory.index(f".{label}")` finds the
first occurrence of the label-definition cell; a missing label is a
fatal fault (Python `ValueError`), surfaced as an error at each use
site. -/
def resolve_label (code : List Cell) (label : String) : Option Nat :=
  code.findIdx? (fun c => c == Cell.str ("." ++ label))

/-- Source lines 153-158: scan the block stack from the top (our list
head) for the first block of the given type, across all frames. -/
def last_block (block_type : String) (bs : List Block) : Option Block :=
  bs.find? (fun b => b.block_type == block_type)

/-- Source lines 160-172. Both call sites pass two cells read from code
memory, so the `continue_label != None` test of the source is always
true here; a non-string cell or an unresolvable label is a fatal fault
(Python `ValueError` inside `resolve_label`). The new block records the
active frame's identity as its owner and the nearest same-kind block as
its (unused) parent. -/
def push_block (code : List Cell) (block_type : String)
    (handler_label continue_label : Cell) (s : VM) : Except String VM :=
  match s.function_stack with
  | [] => .error "function stack empty"
  | active_frame :: _ =>
    match handler_label with
    | .str hl =>
      match resolve_label code hl with
      | none => .error "label not found"
      | some handler_offset =>
        match continue_label with
        | .str cl =>
          match resolve_label code cl with
          | none => .error "label not found"
          | some continue_offset =>
            .ok { s with
              block_stack :=
                ⟨s.next_bid, block_type, handler_offset, some continue_offset,
                 (last_block block_type s.block_stack).map Block.bid,
                 active_frame.fid⟩ :: s.block_stack
              next_bid := s.next_bid + 1 }
        | _ => .error "label not found"
    | _ => .error "label not found"

/-- The frame-discarding loop of the exception unwind, source lines
192-194: pop call-stack frames (their return addresses are never
consulted) until the top frame is the owner of the top block. Emptying
the stack is the fatal `IndexError` of `function_stack[-1]`, modelled
as `none`. -/
def pop_frames_until_owner (owner : Nat) : List Frame → Option (List Frame)
  | [] => none
  | f :: fs =>
    if f.fid = owner then some (f :: fs) else pop_frames_until_owner owner fs

/-- The unwinding engine, source lines 174-237, translated branch by
branch. Note that in the `UNWIND_RETURN` / no-defer branch (source
lines 210-215) the source does NOT reset `unwind_reason`; this
translation reproduces that faithfully. -/
def unwind_block (s : VM) : Except String VM :=
  match s.block_stack with
  | [] => .error "block stack empty"
  | top_block :: bs =>
    match s.function_stack with
    | [] => .error "function stack empty"
    | top_frame :: _ =>
      if s.unwind_reason = some UNWIND_EXCEPTION then
        -- unwind function frames (lines 192-194)
        match pop_frames_until_owner top_block.owner_fid s.function_stack with
        | none => .error "function stack empty"
        | some fs2 =>
          if top_block.block_type = "catch" then
            .ok { s with
                  function_stack := fs2
                  block_stack := bs
                  unwind_reason := none
                  instruction_ptr := top_block.handler_offset }
          else if top_block.block_type = "defer" then
            .ok { s with
                  function_stack := fs2
                  instruction_ptr := top_block.handler_offset }
          else .error "unexpected block type"
      else if s.unwind_reason = some UNWIND_RETURN then
        match last_block "defer" s.block_stack with
        | none =>
          -- no defer block left at all: unwind all remaining blocks of
          -- the current frame, jump to the return address, pop the
          -- frame (lines 210-215; `unwind_reason` is left as is)
          match top_frame.return_address with
          | none => .error "invalid return address"
          | some r =>
            .ok { s with
              block_stack :=
                s.block_stack.dropWhile (fun b => b.owner_fid == top_frame.fid)
              instruction_ptr := r
              function_stack := s.function_stack.tail }
        | some last_defer_block =>
          if last_defer_block.owner_fid = top_frame.fid then
            -- defer inside the current frame: drop blocks above it and
            -- jump to it (lines 217-224)
            .ok { s with
              block_stack :=
                s.block_stack.dropWhile (fun b => b != last_defer_block)
              instruction_ptr := last_defer_block.handler_offset }
          else
            -- defer outside the current frame: pop the frame, clear the
            -- reason, drop the frame's remaining blocks (lines 226-234)
            match top_frame.return_address with
            | none => .error "invalid return address"
            | some r =>
              .ok { s with
                instruction_ptr := r
                unwind_reason := none
                function_stack := s.function_stack.tail
                block_stack :=
                  s.block_stack.dropWhile (fun b => b.owner_fid == top_frame.fid) }
      else .error "expected unwind reason"

/-- Python arithmetic coercion: bools are ints (`True == 1`). -/
def toArith : Value → Option Int
  | .int n => some n
  | .bool b => some (if b then 1 else 0)
  | .str _ => none

/-- Source line 307, `lhs + rhs`: ints and bools add arithmetically,
strings concatenate, mixing the two classes is a fatal `TypeError`. -/
def py_add (lhs rhs : Value) : Option Value :=
  match toArith lhs, toArith rhs with
  | some a, some b => some (.int (a + b))
  | _, _ =>
    match lhs, rhs with
    | .str a, .str b => some (.str (a ++ b))
    | _, _ => none

/-- Source line 313, Python `lhs == rhs`. -/
def py_eq (lhs rhs : Value) : Bool :=
  match toArith lhs, toArith rhs with
  | some a, some b => a == b
  | _, _ =>
    match lhs, rhs with
    | .str a, .str b => a == b
    | _, _ => false

/-- Python truthiness of the values this machine produces (line 279). -/
def truthy : Value → Bool
  | .int n => n != 0
  | .str s => s != ""
  | .bool b => b

/-- Result of one driver-loop iteration: either a successor state or
loop exit through `OP_EXIT` with the popped exit code (line 359-361). -/
inductive StepResult where
  | cont (s : VM)
  | halted (v : Value)
deriving DecidableEq, Repr

/-- `OP_SETUPCATCH` arm, source lines 266-268: two operand cells are
consumed but the instruction pointer advances by only 2. -/
def op_setupcatch (code : List Cell) (s : VM) : Except String StepResult :=
  match code[s.instruction_ptr + 1]?, code[s.instruction_ptr + 2]? with
  | some c1, some c2 =>
    (push_block code "catch" c1 c2 s).map fun s2 =>
      .cont { s2 with instruction_ptr := s2.instruction_ptr + 2 }
  | _, _ => .error "instruction pointer out of range"

/-- `OP_SETUPDEFER` arm, source lines 270-272: advances by 3. -/
def op_setupdefer (code : List Cell) (s : VM) : Except String StepResult :=
  match code[s.instruction_ptr + 1]?, code[s.instruction_ptr + 2]? with
  | some c1, some c2 =>
    (push_block code "defer" c1 c2 s).map fun s2 =>
      .cont { s2 with instruction_ptr := s2.instruction_ptr + 3 }
  | _, _ => .error "instruction pointer out of range"

/-- `OP_UNWIND` arm, source lines 316-327: explicit scope exit with no
unwind in progress. A catch is popped and control resumes at its
continue offset; a defer stays and control enters its handler body. -/
def op_unwind (s : VM) : Except String StepResult :=
  match s.block_stack with
  | [] => .error "empty block stack"
  | top_block :: bs =>
    if top_block.block_type = "catch" then
      match top_block.continue_offset with
      | some r => .ok (.cont { s with instruction_ptr := r, block_stack := bs })
      | none => .error "invalid resume address"
    else if top_block.block_type = "defer" then
      .ok (.cont { s with instruction_ptr := top_block.handler_offset })
    else .error "unexpected block type"

/-- `OP_DEFERCONTINUE` arm, source lines 329-337: pops the top block;
with an unwind in progress it re-enters the unwinding engine, otherwise
it resumes at the popped block's continue offset. -/
def op_defercontinue (s : VM) : Except String StepResult :=
  if s.block_stack.length < 2 then .error "empty block stack"
  else
    match s.block_stack with
    | [] => .error "empty block stack"
    | top_block :: bs =>
      if s.unwind_reason ≠ none then
        (unwind_block { s with block_stack := bs }).map StepResult.cont
      else
        match top_block.continue_offset with
        | some r =>
          .ok (.cont { s with block_stack := bs, instruction_ptr := r })
        | none => .error "invalid resume address"

/-- `OP_RET` arm, source lines 339-349: a return unwind begins exactly
when the block stack is non-empty and its top block is not the block
recorded as the frame's `block_marker`; otherwise the frame is popped
directly and control jumps to its return address. -/
def op_ret (s : VM) : Except String StepResult :=
  match s.function_stack with
  | [] => .error "function stack empty"
  | active_frame :: fs =>
    let begin_unwind :=
      match s.block_stack with
      | [] => false
      | top_block :: _ => active_frame.block_marker != some top_block.bid
    if begin_unwind then
      (unwind_block { s with unwind_reason := some UNWIND_RETURN }).map
        StepResult.cont
    else
      match active_frame.return_address with
      | some r =>
        .ok (.cont { s with function_stack := fs, instruction_ptr := r })
      | none => .error "invalid return address"

/-- `OP_THROW` arm, source lines 351-357: with no catch block anywhere
on the block stack the throw is a fatal engine fault, otherwise the
exception unwind runs. -/
def op_throw (s : VM) : Except String StepResult :=
  match last_block "catch" s.block_stack with
  | none => .error "no exception handler found"
  | some _ =>
    (unwind_block { s with unwind_reason := some UNWIND_EXCEPTION }).map
      StepResult.cont

/-- `OP_CALL` arm, source lines 295-302: push a frame recording the
return address, sentinel-initialized locals and the current block-stack
top as `block_marker`, then jump to the callee. -/
def op_call (code : List Cell) (s : VM) : Except String StepResult :=
  match code[s.instruction_ptr + 1]? with
  | some (.str lbl) =>
    match resolve_label code lbl with
    | some call_offset =>
      .ok (.cont { s with
        function_stack :=
          ⟨s.next_fid, some (s.instruction_ptr + 2),
           [.int 9999, .int 9999, .int 9999, .int 9999],
           (s.block_stack.head?).map Block.bid⟩ :: s.function_stack
        next_fid := s.next_fid + 1
        instruction_ptr := call_offset })
    | none => .error "label not found"
  | _ => .error "label not found"

/-- One iteration of the driver loop, source lines 239-374, with the
arms in source order. A string cell at the instruction pointer is
skipped as a label (lines 242-245); a numeric cell is dispatched as an
opcode, unknown opcodes being fatal (line 374). `OP_PRINT` only pops
(printing is I/O); `OP_GETNUMBER` reads from the `input` stream. Local
variable offsets are modelled as in-range natural indices (the
programs use slots 0-3; Python's negative-index wrap-around is not
exercised by any claim). -/
def step (code : List Cell) (s : VM) : Except String StepResult :=
  match code[s.instruction_ptr]? with
  | none => .error "instruction pointer out of range"
  | some (.str _) =>
    .ok (.cont { s with instruction_ptr := s.instruction_ptr + 1 })
  | some (.int opcode) =>
    if opcode = OP_LOAD then
      match code[s.instruction_ptr + 1]? with
      | some cell =>
        .ok (.cont { s with
                     data_stack := cellVal cell :: s.data_stack
                     instruction_ptr := s.instruction_ptr + 2 })
      | none => .error "instruction pointer out of range"
    else if opcode = OP_GETNUMBER then
      match s.input with
      | n :: rest =>
        .ok (.cont { s with
                     data_stack := .int n :: s.data_stack
                     input := rest
                     instruction_ptr := s.instruction_ptr + 1 })
      | [] => .error "input exhausted"
    else if opcode = OP_WRITELOCAL then
      match code[s.instruction_ptr + 1]?, s.function_stack, s.data_stack with
      | some (.int off), f :: fs, v :: ds =>
        if 0 ≤ off ∧ off.toNat < f.locals.length then
          .ok (.cont { s with
            function_stack := { f with locals := f.locals.set off.toNat v } :: fs
            data_stack := ds
            instruction_ptr := s.instruction_ptr + 2 })
        else .error "local index out of range"
      | _, _, _ => .error "invalid writelocal"
    else if opcode = OP_SETUPCATCH then op_setupcatch code s
    else if opcode = OP_SETUPDEFER then op_setupdefer code s
    else if opcode = OP_JMP then
      match code[s.instruction_ptr + 1]? with
      | some (.str lbl) =>
        match resolve_label code lbl with
        | some off => .ok (.cont { s with instruction_ptr := off })
        | none => .error "label not found"
      | _ => .error "label not found"
    else if opcode = OP_JMPIF then
      match s.data_stack with
      | v :: ds =>
        if truthy v then
          match code[s.instruction_ptr + 1]? with
          | some (.str lbl) =>
            match resolve_label code lbl with
            | some off =>
              .ok (.cont { s with data_stack := ds, instruction_ptr := off })
            | none => .error "label not found"
          | _ => .error "label not found"
        else
          .ok (.cont { s with
                       data_stack := ds
                       instruction_ptr := s.instruction_ptr + 2 })
      | [] => .error "pop from empty stack"
    else if opcode = OP_LOADLOCAL then
      match code[s.instruction_ptr + 1]?, s.function_stack with
      | some (.int off), f :: _ =>
        if 0 ≤ off then
          match f.locals[off.toNat]? with
          | some v =>
            .ok (.cont { s with
                         data_stack := v :: s.data_stack
                         instruction_ptr := s.instruction_ptr + 2 })
          | none => .error "local index out of range"
        else .error "local index out of range"
      | _, _ => .error "invalid loadlocal"
    else if opcode = OP_PRINT then
      match s.data_stack with
      | _ :: ds =>
        .ok (.cont { s with
                     data_stack := ds
                     instruction_ptr := s.instruction_ptr + 1 })
      | [] => .error "pop from empty stack"
    else if opcode = OP_CALL then op_call code s
    else if opcode = OP_ADD then
      match s.data_stack with
      | rhs :: lhs :: ds =>
        match py_add lhs rhs with
        | some v =>
          .ok (.cont { s with
                       data_stack := v :: ds
                       instruction_ptr := s.instruction_ptr + 1 })
        | none => .error "type error"
      | _ => .error "pop from empty stack"
    else if opcode = OP_CMP then
      match s.data_stack with
      | rhs :: lhs :: ds =>
        .ok (.cont { s with
                     data_stack := .bool (py_eq lhs rhs) :: ds
                     instruction_ptr := s.instruction_ptr + 1 })
      | _ => .error "pop from empty stack"
    else if opcode = OP_UNWIND then op_unwind s
    else if opcode = OP_DEFERCONTINUE then op_defercontinue s
    else if opcode = OP_RET then op_ret s
    else if opcode = OP_THROW then op_throw s
    else if opcode = OP_EXIT then
      match s.data_stack with
      | v :: _ => .ok (.halted v)
      | [] => .error "pop from empty stack"
    else if opcode = OP_ABORT then .error "internal error"
    else if opcode = OP_DUP then
      match s.data_stack with
      | v :: _ =>
        .ok (.cont { s with
                     data_stack := v :: s.data_stack
                     instruction_ptr := s.instruction_ptr + 1 })
      | [] => .error "empty stack"
    else .error "unexpected opcode"

/-- The initial interpreter state, source lines 132-142: one root frame
`["err", [0, 0, 0, 0], None]` (the sentinel return address is `none`
here), empty stacks, no unwind in progress, instruction pointer 0. -/
def initVM (input : List Int) : VM :=
  { data_stack := []
    function_stack := [⟨0, none, [.int 0, .int 0, .int 0, .int 0], none⟩]
    block_stack := []
    unwind_reason := none
    instruction_ptr := 0
    next_fid := 1
    next_bid := 0
    input := input }

/-- States of a run of the driver loop: reflexive-transitive closure of
`step` results that continue the loop. -/
inductive Reaches (code : List Cell) : VM → VM → Prop
  | refl (s : VM) : Reaches code s s
  | tail {a b c : VM} :
      Reaches code a b → step code b = .ok (.cont c) → Reaches code a c

/-! ### Characterizations of the stack-scanning loops -/

/-- The exception unwind's frame loop discards a prefix of frames none
of which is the owner, and stops with the owner on top. -/
theorem pop_frames_spec {owner : Nat} :
    ∀ {fs fs2 : List Frame}, pop_frames_until_owner owner fs = some fs2 →
      ∃ dropped f fs3, fs = dropped ++ fs2 ∧ (∀ g ∈ dropped, g.fid ≠ owner) ∧
        fs2 = f :: fs3 ∧ f.fid = owner := by
  intro fs
  induction fs with
  | nil => intro fs2 h; simp [pop_frames_until_owner] at h
  | cons f fs ih =>
    intro fs2 h
    by_cases hf : f.fid = owner
    · simp only [pop_frames_until_owner, if_pos hf, Option.some.injEq] at h
      exact ⟨[], f, fs, by simp [h], by simp, h.symm, hf⟩
    · simp only [pop_frames_until_owner, if_neg hf] at h
      obtain ⟨dropped, g, fs3, heq, hdr, h2, h3⟩ := ih h
      refine ⟨f :: dropped, g, fs3, by simp [heq], ?_, h2, h3⟩
      intro x hx
      rcases List.mem_cons.mp hx with rfl | hx
      · exact hf
      · exact hdr x hx

theorem dropWhile_eq_cons_of {α : Type} {p : α → Bool} :
    ∀ {a : List α} {d : α} {r : List α},
      (∀ x ∈ a, p x = true) → p d = false →
      (a ++ d :: r).dropWhile p = d :: r := by
  intro a
  induction a with
  | nil => intro d r _ hd; simp [List.dropWhile_cons, hd]
  | cons x a ih =>
    intro d r ha hd
    have hx : p x = true := ha x (by simp)
    simp only [List.cons_append, List.dropWhile_cons, hx, if_pos]
    exact ih (fun y hy => ha y (by simp [hy])) hd

theorem mem_dropWhile_of_mem {α : Type} {p : α → Bool} :
    ∀ {l : List α} {x : α}, x ∈ l → p x = false → x ∈ l.dropWhile p := by
  intro l
  induction l with
  | nil => simp
  | cons y l ih =>
    intro x hx hpx
    rw [List.dropWhile_cons]
    by_cases hy : p y = true
    · rw [if_pos hy]
      rcases List.mem_cons.mp hx with rfl | hx
      · rw [hpx] at hy; cases hy
      · exact ih hx hpx
    · rw [if_neg hy]
      exact hx

theorem dropWhile_head_false {α : Type} (p : α → Bool) :
    ∀ {l : List α} {d : α} {r : List α}, l.dropWhile p = d :: r → p d = false := by
  intro l
  induction l with
  | nil => intro d r h; simp at h
  | cons x l ih =>
    intro d r h
    rw [List.dropWhile_cons] at h
    by_cases hx : p x = true
    · rw [if_pos hx] at h; exact ih h
    · rw [if_neg hx] at h
      cases h
      exact Bool.not_eq_true _ ▸ eq_false_of_ne_true hx

theorem find?_append_cons {α : Type} {p : α → Bool} :
    ∀ {a : List α} {d : α} {r : List α}, (∀ x ∈ a, p x = false) → p d = true →
      (a ++ d :: r).find? p = some d := by
  intro a
  induction a with
  | nil => intro d r _ hd; simp [List.find?_cons_of_pos _ hd]
  | cons x a ih =>
    intro d r ha hd
    have hx : p x = false := ha x (by simp)
    rw [List.cons_append, List.find?_cons_of_neg _ (by simp [hx])]
    exact ih (fun y hy => ha y (by simp [hy])) hd

/-! ### The structural well-formedness invariant of the machine

Every block's owner is a live frame (this is the liveness property of
the `owner_frame` back-references), block owners appear on the block
stack in call order (the cross-frame LIFO nesting of the design),
frame serials strictly decrease downward from the top of the call
stack, all recorded serials are below the counters that supply fresh
ones, and no frame's `block_marker` is a block that the frame itself
owns. -/
def WFparts (fs : List Frame) (bs : List Block) (nf nb : Nat) : Prop :=
  (∀ b ∈ bs, b.owner_fid ∈ fs.map Frame.fid) ∧
  (bs.map Block.owner_fid).Pairwise (· ≥ ·) ∧
  (fs.map Frame.fid).Pairwise (· > ·) ∧
  (∀ b ∈ bs, b.bid < nb) ∧
  (∀ f ∈ fs, ∀ m, f.block_marker = some m → m < nb) ∧
  (∀ f ∈ fs, f.fid < nf) ∧
  (∀ f ∈ fs, ∀ b ∈ bs, b.owner_fid = f.fid → f.block_marker ≠ some b.bid)

/-- The machine invariant: `WFparts` over the current stacks and
serial-number supplies. -/
def WF (s : VM) : Prop :=
  WFparts s.function_stack s.block_stack s.next_fid s.next_bid

theorem wf_init (input : List Int) : WF (initVM input) := by
  refine ⟨?_, ?_, ?_, ?_, ?_, ?_, ?_⟩ <;> simp [initVM]

/-- With strictly decreasing frame serials, the top frame's serial
bounds every live serial. -/
theorem fid_le_head {f : Frame} {fs : List Frame} {x : Nat}
    (hpw : ((f :: fs).map Frame.fid).Pairwise (· > ·))
    (hx : x ∈ (f :: fs).map Frame.fid) : x ≤ f.fid := by
  rw [List.map_cons, List.pairwise_cons] at hpw
  rcases List.mem_cons.mp hx with rfl | hx
  · exact le_refl _
  · exact le_of_lt (hpw.1 x hx)

/-- If the top frame owns any live block, it owns the top block: its
blocks form the topmost run of the block stack. -/
theorem head_owner_eq_of_mem {f : Frame} {fs : List Frame} {nf nb : Nat}
    {b0 : Block} {bs : List Block} {b : Block}
    (h : WFparts (f :: fs) (b0 :: bs) nf nb)
    (hb : b ∈ b0 :: bs) (hown : b.owner_fid = f.fid) :
    b0.owner_fid = f.fid := by
  obtain ⟨h1, h2, h3, _⟩ := h
  have hle : b0.owner_fid ≤ f.fid :=
    fid_le_head h3 (h1 b0 (by simp))
  rcases List.mem_cons.mp hb with rfl | hb
  · exact hown
  · have hge : b0.owner_fid ≥ b.owner_fid := by
      rw [List.map_cons, List.pairwise_cons] at h2
      exact h2.1 b.owner_fid (List.mem_map_of_mem Block.owner_fid hb)
    omega

/-- After discarding the top frame's blocks, no block of that frame is
left on the block stack. -/
theorem no_own_after_dropWhile {f : Frame} {fs : List Frame}
    {bs : List Block} {nf nb : Nat} (h : WFparts (f :: fs) bs nf nb) :
    ∀ b ∈ bs.dropWhile (fun b => b.owner_fid == f.fid),
      b.owner_fid ≠ f.fid := by
  intro b hb
  rcases hres : bs.dropWhile (fun b => b.owner_fid == f.fid) with _ | ⟨b0, r⟩
  · rw [hres] at hb; cases hb
  · rw [hres] at hb
    have hb0 : (b0.owner_fid == f.fid) = false :=
      dropWhile_head_false (fun x : Block => x.owner_fid == f.fid) hres
    have hb0ne : b0.owner_fid ≠ f.fid := by simpa using hb0
    have hsub : (b0 :: r).Sublist bs :=
      (hres ▸ List.dropWhile_suffix _).sublist
    intro hown
    obtain ⟨h1, h2, h3, _⟩ := h
    have hmem : b ∈ bs := hsub.subset hb
    have hle : b0.owner_fid ≤ f.fid :=
      fid_le_head h3 (h1 b0 (hsub.subset (by simp)))
    have hpw : ((b0 :: r).map Block.owner_fid).Pairwise (· ≥ ·) :=
      h2.sublist (hsub.map Block.owner_fid)
    rcases List.mem_cons.mp hb with rfl | hb'
    · exact hb0ne hown
    · have hge : b0.owner_fid ≥ b.owner_fid := by
        rw [List.map_cons, List.pairwise_cons] at hpw
        exact hpw.1 b.owner_fid (List.mem_map_of_mem Block.owner_fid hb')
      omega

/-! ### Preservation of the invariant by the primitive stack effects -/

theorem wfp_bs_sublist {fs : List Frame} {bs bs' : List Block} {nf nb : Nat}
    (h : WFparts fs bs nf nb) (hs : bs'.Sublist bs) : WFparts fs bs' nf nb := by
  obtain ⟨h1, h2, h3, h4, h5, h6, h7⟩ := h
  exact ⟨fun b hb => h1 b (hs.subset hb),
         h2.sublist (hs.map Block.owner_fid), h3,
         fun b hb => h4 b (hs.subset hb), h5, h6,
         fun f hf b hb => h7 f hf b (hs.subset hb)⟩

theorem wfp_push_block {f : Frame} {fs : List Frame} {bs : List Block}
    {nf nb : Nat} (h : WFparts (f :: fs) bs nf nb)
    (bt : String) (ho : Nat) (co po : Option Nat) :
    WFparts (f :: fs) (⟨nb, bt, ho, co, po, f.fid⟩ :: bs) nf (nb + 1) := by
  obtain ⟨h1, h2, h3, h4, h5, h6, h7⟩ := h
  refine ⟨?_, ?_, h3, ?_, ?_, h6, ?_⟩
  · intro b hb
    rcases List.mem_cons.mp hb with rfl | hb
    · simp
    · exact h1 b hb
  · rw [List.map_cons, List.pairwise_cons]
    exact ⟨fun o ho => by
      obtain ⟨b, hb, rfl⟩ := List.mem_map.mp ho
      exact fid_le_head h3 (h1 b hb), h2⟩
  · intro b hb
    rcases List.mem_cons.mp hb with rfl | hb
    · exact Nat.lt_succ_self _
    · exact Nat.lt_succ_of_lt (h4 b hb)
  · intro g hg m hm
    exact Nat.lt_succ_of_lt (h5 g hg m hm)
  · intro g hg b hb hown
    rcases List.mem_cons.mp hb with rfl | hb
    · intro hmk
      have := h5 g hg nb hmk
      omega
    · exact h7 g hg b hb hown

theorem wfp_call {fs : List Frame} {bs : List Block} {nf nb : Nat}
    (h : WFparts fs bs nf nb) (r : Option Nat) (ls : List Value) :
    WFparts (⟨nf, r, ls, bs.head?.map Block.bid⟩ :: fs) bs (nf + 1) nb := by
  obtain ⟨h1, h2, h3, h4, h5, h6, h7⟩ := h
  refine ⟨?_, h2, ?_, h4, ?_, ?_, ?_⟩
  · intro b hb
    rw [List.map_cons]
    exact List.mem_cons_of_mem _ (h1 b hb)
  · rw [List.map_cons, List.pairwise_cons]
    exact ⟨fun o ho => by
      obtain ⟨g, hg, rfl⟩ := List.mem_map.mp ho
      exact h6 g hg, h3⟩
  · intro g hg m hm
    rcases List.mem_cons.mp hg with rfl | hg
    · simp only [Option.map_eq_some'] at hm
      obtain ⟨b, hb, rfl⟩ := hm
      exact h4 b (List.mem_of_mem_head? hb)
    · exact h5 g hg m hm
  · intro g hg
    rcases List.mem_cons.mp hg with rfl | hg
    · exact Nat.lt_succ_self _
    · exact Nat.lt_succ_of_lt (h6 g hg)
  · intro g hg b hb hown
    rcases List.mem_cons.mp hg with rfl | hg
    · exfalso
      have : b.owner_fid ∈ fs.map Frame.fid := h1 b hb
      obtain ⟨g2, hg2, hfid⟩ := List.mem_map.mp this
      have := h6 g2 hg2
      simp only at hown
      omega
    · exact h7 g hg b hb hown

theorem wfp_pop_frame {f : Frame} {fs : List Frame} {bs : List Block}
    {nf nb : Nat} (h : WFparts (f :: fs) bs nf nb)
    (hno : ∀ b ∈ bs, b.owner_fid ≠ f.fid) : WFparts fs bs nf nb := by
  obtain ⟨h1, h2, h3, h4, h5, h6, h7⟩ := h
  rw [List.map_cons, List.pairwise_cons] at h3
  refine ⟨?_, h2, h3.2, h4, ?_, ?_, ?_⟩
  · intro b hb
    have := h1 b hb
    rw [List.map_cons, List.mem_cons] at this
    rcases this with heq | hm
    · exact absurd heq (hno b hb)
    · exact hm
  · intro g hg m hm
    exact h5 g (List.mem_cons_of_mem _ hg) m hm
  · intro g hg
    exact h6 g (List.mem_cons_of_mem _ hg)
  · intro g hg b hb hown
    exact h7 g (List.mem_cons_of_mem _ hg) b hb hown

/-- Return unwind when the frame is popped: dropping the frame's own
blocks from the top of the block stack and then popping the frame
preserves the invariant. -/
theorem wfp_drop_then_pop {f : Frame} {fs : List Frame} {bs : List Block}
    {nf nb : Nat} (h : WFparts (f :: fs) bs nf nb) :
    WFparts fs (bs.dropWhile (fun b => b.owner_fid == f.fid)) nf nb :=
  wfp_pop_frame
    (wfp_bs_sublist h (List.dropWhile_suffix _).sublist)
    (no_own_after_dropWhile h)

/-- Direct frame pop at `OP_RET`: when the top block is the frame's own
`block_marker` (or the block stack is empty), the frame owns no blocks,
so popping it preserves the invariant. -/
theorem wfp_ret_direct {f : Frame} {fs : List Frame} {bs : List Block}
    {nf nb : Nat} (h : WFparts (f :: fs) bs nf nb)
    (hm : ∀ b0 r, bs = b0 :: r → f.block_marker = some b0.bid) :
    WFparts fs bs nf nb := by
  refine wfp_pop_frame h ?_
  intro b hb hown
  rcases hbs : bs with _ | ⟨b0, r⟩
  · rw [hbs] at hb; cases hb
  · rw [hbs] at hb h
    have hb0 : b0.owner_fid = f.fid := head_owner_eq_of_mem h hb hown
    have := h.2.2.2.2.2.2 f (by simp) b0 (by simp) hb0
    exact this (hm b0 r hbs)

/-- The frame-discarding loop of the exception unwind preserves the
invariant: discarded frames own no blocks, because the top block's
owner bounds all block owners and the discarded frames sit above it. -/
theorem wfp_exc_frames {fs : List Frame} {b0 : Block} {bs' : List Block}
    {nf nb : Nat} (h : WFparts fs (b0 :: bs') nf nb)
    {fs2 : List Frame}
    (hpop : pop_frames_until_owner b0.owner_fid fs = some fs2) :
    WFparts fs2 (b0 :: bs') nf nb := by
  obtain ⟨dropped, g, fs3, heq, hdr, hcons, hgfid⟩ := pop_frames_spec hpop
  obtain ⟨h1, h2, h3, h4, h5, h6, h7⟩ := h
  have hsfx : fs2.Sublist fs := (heq ▸ List.suffix_append dropped fs2).sublist
  have hpw2 : (fs2.map Frame.fid).Pairwise (· > ·) :=
    h3.sublist (hsfx.map Frame.fid)
  refine ⟨?_, h2, hpw2, h4, ?_, ?_, ?_⟩
  · intro b hb
    have hmem : b.owner_fid ∈ fs.map Frame.fid := h1 b hb
    rw [heq, List.map_append, List.mem_append] at hmem
    rcases hmem with hd | hm
    · exfalso
      obtain ⟨gd, hgd, hfid⟩ := List.mem_map.mp hd
      -- gd sits above g on the call stack, so gd.fid > g.fid = b0.owner_fid
      have hgt : gd.fid > g.fid := by
        rw [heq, List.map_append, List.pairwise_append] at h3
        exact h3.2.2 gd.fid (List.mem_map_of_mem Frame.fid hgd) g.fid
          (by rw [hcons]; simp)
      -- but the top block's owner bounds b's owner from above
      have hle : b.owner_fid ≤ b0.owner_fid := by
        rcases List.mem_cons.mp hb with rfl | hb2
        · exact le_refl _
        · rw [List.map_cons, List.pairwise_cons] at h2
          exact h2.1 b.owner_fid (List.mem_map_of_mem Block.owner_fid hb2)
      omega
    · exact hm
  · intro g2 hg2 m hm
    exact h5 g2 (hsfx.subset hg2) m hm
  · intro g2 hg2
    exact h6 g2 (hsfx.subset hg2)
  · intro g2 hg2 b hb hown
    exact h7 g2 (hsfx.subset hg2) b hb hown

/-- Overwriting a frame's locals (`OP_WRITELOCAL`) does not disturb the
invariant: serials and markers are untouched. -/
theorem wfp_frame_locals {f : Frame} {ls : List Value} {fs : List Frame}
    {bs : List Block} {nf nb : Nat} (h : WFparts (f :: fs) bs nf nb) :
    WFparts ({ f with locals := ls } :: fs) bs nf nb := by
  obtain ⟨h1, h2, h3, h4, h5, h6, h7⟩ := h
  refine ⟨?_, h2, ?_, h4, ?_, ?_, ?_⟩
  · intro b hb
    simpa using h1 b hb
  · simpa using h3
  · intro g hg m hm
    rcases List.mem_cons.mp hg with rfl | hg
    · exact h5 f (by simp) m hm
    · exact h5 g (List.mem_cons_of_mem _ hg) m hm
  · intro g hg
    rcases List.mem_cons.mp hg with rfl | hg
    · exact h6 f (by simp)
    · exact h6 g (List.mem_cons_of_mem _ hg)
  · intro g hg b hb hown
    rcases List.mem_cons.mp hg with rfl | hg
    · exact h7 f (by simp) b hb hown
    · exact h7 g (List.mem_cons_of_mem _ hg) b hb hown

/-! ### Branch-by-branch behavior of the unwinding engine -/

theorem ub_bs_nil {s : VM} (hbs : s.block_stack = []) :
    unwind_block s = .error "block stack empty" := by
  unfold unwind_block
  simp only [hbs]

theorem ub_fs_nil {s : VM} {b0 : Block} {bs : List Block}
    (hbs : s.block_stack = b0 :: bs) (hfs : s.function_stack = []) :
    unwind_block s = .error "function stack empty" := by
  unfold unwind_block
  simp only [hbs, hfs]

theorem ub_no_reason {s : VM} {b0 : Block} {bs : List Block} {f : Frame}
    {fs : List Frame} (hbs : s.block_stack = b0 :: bs)
    (hfs : s.function_stack = f :: fs)
    (hr1 : s.unwind_reason ≠ some UNWIND_EXCEPTION)
    (hr2 : s.unwind_reason ≠ some UNWIND_RETURN) :
    unwind_block s = .error "expected unwind reason" := by
  unfold unwind_block
  simp [hbs, hfs, hr1, hr2]

theorem ub_exc_popfail {s : VM} {b0 : Block} {bs : List Block} {f : Frame}
    {fs : List Frame} (hbs : s.block_stack = b0 :: bs)
    (hfs : s.function_stack = f :: fs)
    (hr : s.unwind_reason = some UNWIND_EXCEPTION)
    (hpop : pop_frames_until_owner b0.owner_fid (f :: fs) = none) :
    unwind_block s = .error "function stack empty" := by
  unfold unwind_block
  simp [hbs, hfs, hr, hpop]

theorem ub_exc_catch {s : VM} {b0 : Block} {bs : List Block} {f : Frame}
    {fs : List Frame} {fs2 : List Frame}
    (hbs : s.block_stack = b0 :: bs) (hfs : s.function_stack = f :: fs)
    (hr : s.unwind_reason = some UNWIND_EXCEPTION)
    (hpop : pop_frames_until_owner b0.owner_fid (f :: fs) = some fs2)
    (hk : b0.block_type = "catch") :
    unwind_block s = .ok { s with
      function_stack := fs2
      block_stack := bs
      unwind_reason := none
      instruction_ptr := b0.handler_offset } := by
  unfold unwind_block
  simp [hbs, hfs, hr, hpop, hk]

theorem ub_exc_defer {s : VM} {b0 : Block} {bs : List Block} {f : Frame}
    {fs : List Frame} {fs2 : List Frame}
    (hbs : s.block_stack = b0 :: bs) (hfs : s.function_stack = f :: fs)
    (hr : s.unwind_reason = some UNWIND_EXCEPTION)
    (hpop : pop_frames_until_owner b0.owner_fid (f :: fs) = some fs2)
    (hk : b0.block_type = "defer") :
    unwind_block s = .ok { s with
      function_stack := fs2
      instruction_ptr := b0.handler_offset } := by
  unfold unwind_block
  simp [hbs, hfs, hr, hpop, hk]

theorem ub_exc_bad {s : VM} {b0 : Block} {bs : List Block} {f : Frame}
    {fs : List Frame} {fs2 : List Frame}
    (hbs : s.block_stack = b0 :: bs) (hfs : s.function_stack = f :: fs)
    (hr : s.unwind_reason = some UNWIND_EXCEPTION)
    (hpop : pop_frames_until_owner b0.owner_fid (f :: fs) = some fs2)
    (hk1 : b0.block_type ≠ "catch") (hk2 : b0.block_type ≠ "defer") :
    unwind_block s = .error "unexpected block type" := by
  unfold unwind_block
  simp [hbs, hfs, hr, hpop, hk1, hk2]

theorem ub_ret_nodefer {s : VM} {b0 : Block} {bs : List Block} {f : Frame}
    {fs : List Frame} {r : Nat}
    (hbs : s.block_stack = b0 :: bs) (hfs : s.function_stack = f :: fs)
    (hr : s.unwind_reason = some UNWIND_RETURN)
    (hld : last_block "defer" s.block_stack = none)
    (hra : f.return_address = some r) :
    unwind_block s = .ok { s with
      block_stack := s.block_stack.dropWhile (fun b => b.owner_fid == f.fid)
      instruction_ptr := r
      function_stack := fs } := by
  unfold unwind_block
  simp [hbs, hfs, hr, UNWIND_EXCEPTION, UNWIND_RETURN, hbs ▸ hld, hra]

theorem ub_ret_defer_own {s : VM} {b0 : Block} {bs : List Block} {f : Frame}
    {fs : List Frame} {d : Block}
    (hbs : s.block_stack = b0 :: bs) (hfs : s.function_stack = f :: fs)
    (hr : s.unwind_reason = some UNWIND_RETURN)
    (hld : last_block "defer" s.block_stack = some d)
    (hown : d.owner_fid = f.fid) :
    unwind_block s = .ok { s with
      block_stack := s.block_stack.dropWhile (fun b => b != d)
      instruction_ptr := d.handler_offset } := by
  unfold unwind_block
  simp [hbs, hfs, hr, UNWIND_EXCEPTION, UNWIND_RETURN, hbs ▸ hld, hown]

theorem ub_ret_defer_outer {s : VM} {b0 : Block} {bs : List Block} {f : Frame}
    {fs : List Frame} {d : Block} {r : Nat}
    (hbs : s.block_stack = b0 :: bs) (hfs : s.function_stack = f :: fs)
    (hr : s.unwind_reason = some UNWIND_RETURN)
    (hld : last_block "defer" s.block_stack = some d)
    (hown : d.owner_fid ≠ f.fid) (hra : f.return_address = some r) :
    unwind_block s = .ok { s with
      instruction_ptr := r
      unwind_reason := none
      function_stack := fs
      block_stack := s.block_stack.dropWhile (fun b => b.owner_fid == f.fid) } := by
  unfold unwind_block
  simp [hbs, hfs, hr, UNWIND_EXCEPTION, UNWIND_RETURN, hbs ▸ hld, hown, hra]

/-- The unwinding engine preserves the structural invariant: none of
its branches pops a frame that still owns blocks, and block discarding
always removes a top segment of the block stack. -/
theorem wf_unwind_block {s s' : VM} (h : WF s) (hu : unwind_block s = .ok s') :
    WF s' := by
  rcases hbs : s.block_stack with _ | ⟨b0, bs⟩
  · rw [ub_bs_nil hbs] at hu; cases hu
  rcases hfs : s.function_stack with _ | ⟨f, fs'⟩
  · rw [ub_fs_nil hbs hfs] at hu; cases hu
  have hparts : WFparts (f :: fs') (b0 :: bs) s.next_fid s.next_bid := by
    have h0 : WFparts s.function_stack s.block_stack s.next_fid s.next_bid := h
    rw [hbs, hfs] at h0
    exact h0
  by_cases hexc : s.unwind_reason = some UNWIND_EXCEPTION
  · rcases hpop : pop_frames_until_owner b0.owner_fid (f :: fs') with _ | fs2
    · rw [ub_exc_popfail hbs hfs hexc hpop] at hu; cases hu
    have hwf2 : WFparts fs2 (b0 :: bs) s.next_fid s.next_bid :=
      wfp_exc_frames hparts (hfs ▸ hpop)
    by_cases hk1 : b0.block_type = "catch"
    · rw [ub_exc_catch hbs hfs hexc hpop hk1, Except.ok.injEq] at hu
      subst hu
      exact wfp_bs_sublist hwf2 (List.sublist_cons_self b0 bs)
    by_cases hk2 : b0.block_type = "defer"
    · rw [ub_exc_defer hbs hfs hexc hpop hk2, Except.ok.injEq] at hu
      subst hu
      show WFparts fs2 s.block_stack s.next_fid s.next_bid
      rw [hbs]
      exact hwf2
    · rw [ub_exc_bad hbs hfs hexc hpop hk1 hk2] at hu; cases hu
  by_cases hret : s.unwind_reason = some UNWIND_RETURN
  · rcases hld : last_block "defer" s.block_stack with _ | d
    · rcases hra : f.return_address with _ | r
      · -- no defer and no return address: the branch faults
        have : unwind_block s = .error "invalid return address" := by
          unfold unwind_block
          simp [hbs, hfs, hret, UNWIND_EXCEPTION, UNWIND_RETURN, hbs ▸ hld, hra]
        rw [this] at hu; cases hu
      · rw [ub_ret_nodefer hbs hfs hret hld hra, Except.ok.injEq] at hu
        subst hu
        show WFparts fs'
          (s.block_stack.dropWhile (fun b => b.owner_fid == f.fid))
          s.next_fid s.next_bid
        exact wfp_drop_then_pop (hfs ▸ (hbs ▸ hparts : WFparts (f :: fs') s.block_stack s.next_fid s.next_bid))
    · by_cases hown : d.owner_fid = f.fid
      · rw [ub_ret_defer_own hbs hfs hret hld hown, Except.ok.injEq] at hu
        subst hu
        show WFparts s.function_stack
          (s.block_stack.dropWhile (fun b => b != d)) s.next_fid s.next_bid
        exact wfp_bs_sublist h (List.dropWhile_suffix _).sublist
      · rcases hra : f.return_address with _ | r
        · have : unwind_block s = .error "invalid return address" := by
            unfold unwind_block
            simp [hbs, hfs, hret, UNWIND_EXCEPTION, UNWIND_RETURN, hbs ▸ hld,
              hown, hra]
          rw [this] at hu; cases hu
        · rw [ub_ret_defer_outer hbs hfs hret hld hown hra,
              Except.ok.injEq] at hu
          subst hu
          show WFparts fs'
            (s.block_stack.dropWhile (fun b => b.owner_fid == f.fid))
            s.next_fid s.next_bid
          exact wfp_drop_then_pop (hbs ▸ hparts : WFparts (f :: fs') s.block_stack s.next_fid s.next_bid)
  · rw [ub_no_reason hbs hfs hexc hret] at hu; cases hu

/-! ### Invariant preservation by every operation of the driver loop -/

/-- Successful `push_block` always means: live top frame, both labels
resolved, and exactly one new block consed onto the block stack. -/
theorem push_block_ok {code : List Cell} {bt : String} {c1 c2 : Cell}
    {s s2 : VM} (hp : push_block code bt c1 c2 s = .ok s2) :
    ∃ f fs, s.function_stack = f :: fs ∧
      ∃ hl ho cl co, c1 = .str hl ∧ resolve_label code hl = some ho ∧
        c2 = .str cl ∧ resolve_label code cl = some co ∧
        s2 = { s with
          block_stack :=
            ⟨s.next_bid, bt, ho, some co,
             (last_block bt s.block_stack).map Block.bid,
             f.fid⟩ :: s.block_stack
          next_bid := s.next_bid + 1 } := by
  rcases hfs : s.function_stack with _ | ⟨f, fs⟩
  · unfold push_block at hp; simp [hfs] at hp
  rcases c1 with n | hl
  · unfold push_block at hp; simp [hfs] at hp
  rcases hro : resolve_label code hl with _ | ho
  · unfold push_block at hp; simp [hfs, hro] at hp
  rcases c2 with n2 | cl
  · unfold push_block at hp; simp [hfs, hro] at hp
  rcases hro2 : resolve_label code cl with _ | co
  · unfold push_block at hp; simp [hfs, hro, hro2] at hp
  · unfold push_block at hp
    simp only [hfs, hro, hro2] at hp
    rw [Except.ok.injEq] at hp
    exact ⟨f, fs, rfl, hl, ho, cl, co, rfl, hro, rfl, hro2, hp.symm⟩

theorem wf_push_block {code : List Cell} {bt : String} {c1 c2 : Cell}
    {s s2 : VM} (h : WF s) (hp : push_block code bt c1 c2 s = .ok s2) :
    WF s2 := by
  obtain ⟨f, fs, hfs, hl, ho, cl, co, _, _, _, _, hs2⟩ := push_block_ok hp
  subst hs2
  show WFparts s.function_stack
    (⟨s.next_bid, bt, ho, some co,
      (last_block bt s.block_stack).map Block.bid, f.fid⟩ :: s.block_stack)
    s.next_fid (s.next_bid + 1)
  rw [hfs]
  have h0 : WFparts (f :: fs) s.block_stack s.next_fid s.next_bid := by
    have h1 : WFparts s.function_stack s.block_stack s.next_fid s.next_bid := h
    rw [hfs] at h1
    exact h1
  exact wfp_push_block h0 bt ho (some co) _

theorem wf_op_setupblock {code : List Cell} {bt : String} {c1 c2 : Cell}
    {s s' : VM} {k : Nat} (h : WF s)
    (hs : (push_block code bt c1 c2 s).map
      (fun s2 => StepResult.cont { s2 with instruction_ptr := s2.instruction_ptr + k }) =
      .ok (.cont s')) : WF s' := by
  rcases hp : push_block code bt c1 c2 s with e | s2 <;> rw [hp] at hs
  · cases hs
  · simp only [Except.map, Except.ok.injEq, StepResult.cont.injEq] at hs
    subst hs
    show WFparts s2.function_stack s2.block_stack s2.next_fid s2.next_bid
    exact wf_push_block h hp

theorem wf_op_unwind {s s' : VM} (h : WF s)
    (hs : op_unwind s = .ok (.cont s')) : WF s' := by
  rcases hbs : s.block_stack with _ | ⟨b0, bs⟩
  · unfold op_unwind at hs; simp [hbs] at hs
  by_cases hk1 : b0.block_type = "catch"
  · rcases hco : b0.continue_offset with _ | r
    · unfold op_unwind at hs; simp [hbs, hk1, hco] at hs
    · unfold op_unwind at hs
      simp [hbs, hk1, hco] at hs
      subst hs
      show WFparts s.function_stack bs s.next_fid s.next_bid
      have h0 : WFparts s.function_stack s.block_stack s.next_fid s.next_bid := h
      rw [hbs] at h0
      exact wfp_bs_sublist h0 (List.sublist_cons_self b0 bs)
  by_cases hk2 : b0.block_type = "defer"
  · unfold op_unwind at hs
    simp [hbs, hk1, hk2] at hs
    subst hs
    show WFparts s.function_stack (b0 :: bs) s.next_fid s.next_bid
    exact hbs ▸ (h : WFparts _ _ _ _)
  · unfold op_unwind at hs; simp [hbs, hk1, hk2] at hs

/-- With at least two blocks on the stack, `OP_DEFERCONTINUE` pops the
top block and either re-enters the unwinding engine (unwind in
progress) or resumes at the popped block's continue offset. -/
theorem op_defercontinue_eq {s : VM} {b0 b1 : Block} {bs1 : List Block}
    (hbs : s.block_stack = b0 :: b1 :: bs1) :
    op_defercontinue s =
      if s.unwind_reason ≠ none then
        (unwind_block { s with block_stack := b1 :: bs1 }).map StepResult.cont
      else
        match b0.continue_offset with
        | some r =>
          .ok (.cont { s with block_stack := b1 :: bs1, instruction_ptr := r })
        | none => .error "invalid resume address" := by
  unfold op_defercontinue
  rw [hbs]
  rw [if_neg (by simp only [List.length_cons]; omega)]

theorem wf_op_defercontinue {s s' : VM} (h : WF s)
    (hs : op_defercontinue s = .ok (.cont s')) : WF s' := by
  rcases hbs : s.block_stack with _ | ⟨b0, bs⟩
  · unfold op_defercontinue at hs; simp [hbs] at hs
  rcases bs with _ | ⟨b1, bs1⟩
  · unfold op_defercontinue at hs; simp [hbs] at hs
  rw [op_defercontinue_eq hbs] at hs
  have hwfbs : WFparts s.function_stack (b1 :: bs1) s.next_fid s.next_bid := by
    have h0 : WFparts s.function_stack s.block_stack s.next_fid s.next_bid := h
    rw [hbs] at h0
    exact wfp_bs_sublist h0 (List.sublist_cons_self b0 (b1 :: bs1))
  by_cases hr : s.unwind_reason = none
  · rw [if_neg (by simp [hr])] at hs
    rcases hco : b0.continue_offset with _ | r
    · simp [hco] at hs
    · simp [hco] at hs
      subst hs
      exact hwfbs
  · rw [if_pos (by simp [hr])] at hs
    rcases hub : unwind_block { s with block_stack := b1 :: bs1 }
      with e | s2 <;> rw [hub] at hs
    · cases hs
    · simp only [Except.map, Except.ok.injEq, StepResult.cont.injEq] at hs
      subst hs
      have hwf2 : WF { s with block_stack := b1 :: bs1 } := hwfbs
      exact wf_unwind_block hwf2 hub

/-- With a live frame on the call stack, `OP_RET` either begins a
return unwind (block stack non-empty and its top differs from the
frame's `block_marker`) or pops the frame directly. -/
theorem op_ret_eq {s : VM} {f : Frame} {fs : List Frame}
    (hfs : s.function_stack = f :: fs) :
    op_ret s =
      if (match s.block_stack with
          | [] => false
          | top_block :: _ => f.block_marker != some top_block.bid) then
        (unwind_block { s with unwind_reason := some UNWIND_RETURN }).map
          StepResult.cont
      else
        match f.return_address with
        | some r =>
          .ok (.cont { s with function_stack := fs, instruction_ptr := r })
        | none => .error "invalid return address" := by
  unfold op_ret
  rw [hfs]

theorem wf_op_ret {s s' : VM} (h : WF s)
    (hs : op_ret s = .ok (.cont s')) : WF s' := by
  rcases hfs : s.function_stack with _ | ⟨f, fs⟩
  · unfold op_ret at hs; simp [hfs] at hs
  rw [op_ret_eq hfs] at hs
  have h0 : WFparts (f :: fs) s.block_stack s.next_fid s.next_bid := by
    have h1 : WFparts s.function_stack s.block_stack s.next_fid s.next_bid := h
    rw [hfs] at h1
    exact h1
  by_cases hcond : (match s.block_stack with
      | [] => false
      | top_block :: _ => f.block_marker != some top_block.bid) = true
  · -- return unwind path
    rw [if_pos hcond] at hs
    rcases hub : unwind_block { s with unwind_reason := some UNWIND_RETURN }
      with e | s2 <;> rw [hub] at hs
    · cases hs
    · simp only [Except.map, Except.ok.injEq, StepResult.cont.injEq] at hs
      subst hs
      have hwf2 : WF { s with unwind_reason := some UNWIND_RETURN } := h
      exact wf_unwind_block hwf2 hub
  · -- direct pop: the frame owns no blocks
    rw [if_neg hcond] at hs
    rcases hra : f.return_address with _ | r
    · simp [hra] at hs
    · simp [hra] at hs
      subst hs
      show WFparts fs s.block_stack s.next_fid s.next_bid
      rcases hbs : s.block_stack with _ | ⟨b0, bs⟩
      · rw [hbs] at h0
        exact wfp_pop_frame h0 (by simp)
      · rw [hbs] at h0
        rw [hbs] at hcond
        simp only [bne_iff_ne, ne_eq, not_not] at hcond
        refine wfp_ret_direct h0 ?_
        intro b0' r' hb
        rw [List.cons.injEq] at hb
        rw [hb.1] at hcond
        exact hcond

theorem wf_op_throw {s s' : VM} (h : WF s)
    (hs : op_throw s = .ok (.cont s')) : WF s' := by
  rcases hlc : last_block "catch" s.block_stack with _ | c
  · unfold op_throw at hs; simp [hlc] at hs
  · unfold op_throw at hs
    simp only [hlc] at hs
    rcases hub : unwind_block { s with unwind_reason := some UNWIND_EXCEPTION }
      with e | s2 <;> rw [hub] at hs
    · cases hs
    · simp only [Except.map, Except.ok.injEq, StepResult.cont.injEq] at hs
      subst hs
      have hwf2 : WF { s with unwind_reason := some UNWIND_EXCEPTION } := h
      exact wf_unwind_block hwf2 hub

theorem wf_op_call {code : List Cell} {s s' : VM} (h : WF s)
    (hs : op_call code s = .ok (.cont s')) : WF s' := by
  rcases hc : code[s.instruction_ptr + 1]? with _ | c
  · unfold op_call at hs; simp [hc] at hs
  rcases c with n | lbl
  · unfold op_call at hs; simp [hc] at hs
  rcases hro : resolve_label code lbl with _ | off
  · unfold op_call at hs; simp [hc, hro] at hs
  · unfold op_call at hs
    simp [hc, hro] at hs
    subst hs
    show WFparts
      (⟨s.next_fid, some (s.instruction_ptr + 2),
        [.int 9999, .int 9999, .int 9999, .int 9999],
        s.block_stack.head?.map Block.bid⟩ :: s.function_stack)
      s.block_stack (s.next_fid + 1) s.next_bid
    exact wfp_call (h : WFparts _ _ _ _) _ _

/-- Every continuing iteration of the driver loop preserves the
structural invariant tying the block stack to the call stack. -/
theorem wf_step {code : List Cell} {s s' : VM} (h : WF s)
    (hs : step code s = .ok (.cont s')) : WF s' := by
  unfold step at hs
  rcases hip : code[s.instruction_ptr]? with _ | c
  · simp only [hip] at hs; cases hs
  rcases c with n | t
  case str =>
    simp only [hip, Except.ok.injEq, StepResult.cont.injEq] at hs
    subst hs
    exact h
  case int =>
  simp only [hip] at hs
  by_cases h1 : n = OP_LOAD
  · rw [if_pos h1] at hs
    rcases hc1 : code[s.instruction_ptr + 1]? with _ | cell
    · simp [hc1] at hs
    · simp only [hc1, Except.ok.injEq, StepResult.cont.injEq] at hs
      subst hs
      exact h
  rw [if_neg h1] at hs
  by_cases h2 : n = OP_GETNUMBER
  · rw [if_pos h2] at hs
    rcases hin : s.input with _ | ⟨v, rest⟩
    · simp [hin] at hs
    · simp only [hin, Except.ok.injEq, StepResult.cont.injEq] at hs
      subst hs
      exact h
  rw [if_neg h2] at hs
  by_cases h3 : n = OP_WRITELOCAL
  · rw [if_pos h3] at hs
    rcases hc1 : code[s.instruction_ptr + 1]? with _ | cell
    · simp [hc1] at hs
    rcases hfs : s.function_stack with _ | ⟨f, fs⟩ <;>
      rcases hds : s.data_stack with _ | ⟨v, ds⟩ <;>
      rcases cell with off | t2 <;> simp only [hc1, hfs, hds] at hs <;>
      try (exact absurd hs (by simp))
    by_cases hoff : 0 ≤ off ∧ off.toNat < f.locals.length
    · rw [if_pos hoff] at hs
      simp only [Except.ok.injEq, StepResult.cont.injEq] at hs
      subst hs
      show WFparts ({ f with locals := f.locals.set off.toNat v } :: fs)
        s.block_stack s.next_fid s.next_bid
      have h0 : WFparts (f :: fs) s.block_stack s.next_fid s.next_bid := by
        have h1 : WFparts s.function_stack s.block_stack
          s.next_fid s.next_bid := h
        rw [hfs] at h1
        exact h1
      exact wfp_frame_locals h0
    · rw [if_neg hoff] at hs; cases hs
  rw [if_neg h3] at hs
  by_cases h4 : n = OP_SETUPCATCH
  · rw [if_pos h4] at hs
    unfold op_setupcatch at hs
    rcases hc1 : code[s.instruction_ptr + 1]? with _ | c1 <;>
      rcases hc2 : code[s.instruction_ptr + 2]? with _ | c2 <;>
      simp only [hc1, hc2] at hs
    · cases hs
    · cases hs
    · cases hs
    · exact wf_op_setupblock h hs
  rw [if_neg h4] at hs
  by_cases h5 : n = OP_SETUPDEFER
  · rw [if_pos h5] at hs
    unfold op_setupdefer at hs
    rcases hc1 : code[s.instruction_ptr + 1]? with _ | c1 <;>
      rcases hc2 : code[s.instruction_ptr + 2]? with _ | c2 <;>
      simp only [hc1, hc2] at hs
    · cases hs
    · cases hs
    · cases hs
    · exact wf_op_setupblock h hs
  rw [if_neg h5] at hs
  by_cases h6 : n = OP_JMP
  · rw [if_pos h6] at hs
    rcases hc1 : code[s.instruction_ptr + 1]? with _ | cell
    · simp [hc1] at hs
    rcases cell with n2 | lbl
    · simp [hc1] at hs
    rcases hro : resolve_label code lbl with _ | off
    · simp [hc1, hro] at hs
    · simp only [hc1, hro, Except.ok.injEq, StepResult.cont.injEq] at hs
      subst hs
      exact h
  rw [if_neg h6] at hs
  by_cases h7 : n = OP_JMPIF
  · rw [if_pos h7] at hs
    rcases hds : s.data_stack with _ | ⟨v, ds⟩
    · simp [hds] at hs
    simp only [hds] at hs
    by_cases htr : truthy v = true
    · rw [if_pos htr] at hs
      rcases hc1 : code[s.instruction_ptr + 1]? with _ | cell
      · simp [hc1] at hs
      rcases cell with n2 | lbl
      · simp [hc1] at hs
      rcases hro : resolve_label code lbl with _ | off
      · simp [hc1, hro] at hs
      · simp only [hc1, hro, Except.ok.injEq, StepResult.cont.injEq] at hs
        subst hs
        exact h
    · rw [if_neg htr] at hs
      simp only [Except.ok.injEq, StepResult.cont.injEq] at hs
      subst hs
      exact h
  rw [if_neg h7] at hs
  by_cases h8 : n = OP_LOADLOCAL
  · rw [if_pos h8] at hs
    rcases hc1 : code[s.instruction_ptr + 1]? with _ | cell
    · simp [hc1] at hs
    rcases hfs : s.function_stack with _ | ⟨f, fs⟩ <;>
      rcases cell with off | t2 <;> simp only [hc1, hfs] at hs <;>
      try (exact absurd hs (by simp))
    by_cases hoff : 0 ≤ off
    · rw [if_pos hoff] at hs
      rcases hl : f.locals[off.toNat]? with _ | v
      · simp [hl] at hs
      · simp only [hl, Except.ok.injEq, StepResult.cont.injEq] at hs
        subst hs
        show WFparts (f :: fs) s.block_stack s.next_fid s.next_bid
        rw [← hfs]
        exact h
    · rw [if_neg hoff] at hs; cases hs
  rw [if_neg h8] at hs
  by_cases h9 : n = OP_PRINT
  · rw [if_pos h9] at hs
    rcases hds : s.data_stack with _ | ⟨v, ds⟩
    · simp [hds] at hs
    · simp only [hds, Except.ok.injEq, StepResult.cont.injEq] at hs
      subst hs
      exact h
  rw [if_neg h9] at hs
  by_cases h10 : n = OP_CALL
  · rw [if_pos h10] at hs
    exact wf_op_call h hs
  rw [if_neg h10] at hs
  by_cases h11 : n = OP_ADD
  · rw [if_pos h11] at hs
    rcases hds : s.data_stack with _ | ⟨rhs, _ | ⟨lhs, ds⟩⟩
    · simp [hds] at hs
    · simp [hds] at hs
    rcases hpa : py_add lhs rhs with _ | v <;> simp only [hds, hpa] at hs
    · cases hs
    · simp only [Except.ok.injEq, StepResult.cont.injEq] at hs
      subst hs
      exact h
  rw [if_neg h11] at hs
  by_cases h12 : n = OP_CMP
  · rw [if_pos h12] at hs
    rcases hds : s.data_stack with _ | ⟨rhs, _ | ⟨lhs, ds⟩⟩
    · simp [hds] at hs
    · simp [hds] at hs
    · simp only [hds, Except.ok.injEq, StepResult.cont.injEq] at hs
      subst hs
      exact h
  rw [if_neg h12] at hs
  by_cases h13 : n = OP_UNWIND
  · rw [if_pos h13] at hs
    exact wf_op_unwind h hs
  rw [if_neg h13] at hs
  by_cases h14 : n = OP_DEFERCONTINUE
  · rw [if_pos h14] at hs
    exact wf_op_defercontinue h hs
  rw [if_neg h14] at hs
  by_cases h15 : n = OP_RET
  · rw [if_pos h15] at hs
    exact wf_op_ret h hs
  rw [if_neg h15] at hs
  by_cases h16 : n = OP_THROW
  · rw [if_pos h16] at hs
    exact wf_op_throw h hs
  rw [if_neg h16] at hs
  by_cases h17 : n = OP_EXIT
  · rw [if_pos h17] at hs
    rcases hds : s.data_stack with _ | ⟨v, ds⟩
    · simp [hds] at hs
    · simp [hds] at hs
  rw [if_neg h17] at hs
  by_cases h18 : n = OP_ABORT
  · rw [if_pos h18] at hs; cases hs
  rw [if_neg h18] at hs
  by_cases h19 : n = OP_DUP
  · rw [if_pos h19] at hs
    rcases hds : s.data_stack with _ | ⟨v, ds⟩
    · simp [hds] at hs
    · simp only [hds, Except.ok.injEq, StepResult.cont.injEq] at hs
      subst hs
      exact h
  rw [if_neg h19] at hs
  cases hs

/-- C8: Owner-frame liveness invariant. In every state reachable from
the initial state, every Block on the Block Stack has an `owner_frame`
that is still present on the Call Stack: no operation (call, return,
throw, scope exit, defer-continue, or any unwinding step) ever pops a
frame while blocks it owns remain on the Block Stack. Proved for every
program, via the inductive invariant `WF` preserved by `step`. -/
theorem c8_owner_frame_liveness (code : List Cell) (input : List Int)
    (s : VM) (b : Block) (hr : Reaches code (initVM input) s)
    (hb : b ∈ s.block_stack) :
    ∃ f, f ∈ s.function_stack ∧ f.fid = b.owner_fid := by
  have hwf : WF s := by
    clear hb
    induction hr with
    | refl => exact wf_init input
    | tail hr hstep ih => exact wf_step ih hstep
  have hmem := hwf.1 b hb
  obtain ⟨f, hf, hfid⟩ := List.mem_map.mp hmem
  exact ⟨f, hf, hfid⟩

/-- A tiny program for the liveness witness: one `OP_SETUPDEFER`
followed by `OP_ABORT` and the two label cells. -/
def c8Code : List Cell :=
  [.int 8, .str "L1", .str "L2", .int 18, .str ".L1", .str ".L2"]

/-- The state after executing the `OP_SETUPDEFER` of `c8Code` from the
initial state: one defer block owned by the root frame. -/
def c8State : VM :=
  { data_stack := []
    function_stack := [⟨0, none, [.int 0, .int 0, .int 0, .int 0], none⟩]
    block_stack := [⟨0, "defer", 4, some 5, none, 0⟩]
    unwind_reason := none
    instruction_ptr := 3
    next_fid := 1
    next_bid := 1
    input := [] }

theorem c8_owner_frame_liveness_witness :
    ∃ f, f ∈ c8State.function_stack ∧
      f.fid = (Block.mk 0 "defer" 4 (some 5) none 0).owner_fid :=
  c8_owner_frame_liveness c8Code [] c8State ⟨0, "defer", 4, some 5, none, 0⟩
    (Reaches.tail (Reaches.refl _) rfl) (by decide)

/-- C1: Exception unwind algorithm. When `unwind_block` runs with
reason Exception (and the frame loop succeeds, i.e. the owner of the
topmost block is on the call stack), the engine pops call-stack frames
— honoring no return address — until the top frame is the
`owner_frame` of the topmost Block; then a Catch is popped, the reason
cleared and control sent to its `handler_offset`; a Defer is kept, the
reason stays Exception, and control is sent to its `handler_offset`;
any other block kind is fatal. -/
theorem c1_exception_unwind (s : VM) (b0 : Block) (bs : List Block)
    (fs2 : List Frame)
    (hbs : s.block_stack = b0 :: bs)
    (hr : s.unwind_reason = some UNWIND_EXCEPTION)
    (hpop : pop_frames_until_owner b0.owner_fid s.function_stack = some fs2) :
    (∃ dropped, s.function_stack = dropped ++ fs2 ∧
        ∀ g ∈ dropped, g.fid ≠ b0.owner_fid) ∧
    (∃ f fs3, fs2 = f :: fs3 ∧ f.fid = b0.owner_fid) ∧
    (b0.block_type = "catch" →
      unwind_block s = .ok { s with
        function_stack := fs2
        block_stack := bs
        unwind_reason := none
        instruction_ptr := b0.handler_offset }) ∧
    (b0.block_type = "defer" →
      unwind_block s = .ok { s with
        function_stack := fs2
        instruction_ptr := b0.handler_offset }) ∧
    (b0.block_type ≠ "catch" → b0.block_type ≠ "defer" →
      unwind_block s = .error "unexpected block type") := by
  obtain ⟨dropped, f, fs3, heq, hdr, hcons, hfid⟩ := pop_frames_spec hpop
  rcases hfs : s.function_stack with _ | ⟨f0, fs0⟩
  · rw [hfs] at hpop; cases hpop
  rw [hfs] at hpop
  refine ⟨⟨dropped, hfs ▸ heq, hdr⟩, ⟨f, fs3, hcons, hfid⟩, ?_, ?_, ?_⟩
  · intro hk
    exact ub_exc_catch hbs hfs hr hpop hk
  · intro hk
    exact ub_exc_defer hbs hfs hr hpop hk
  · intro hk1 hk2
    exact ub_exc_bad hbs hfs hr hpop hk1 hk2

/-- Machine state for the C1 witness: a throw in progress with one
catch block owned by the root frame. -/
def c1State : VM :=
  { data_stack := []
    function_stack := [⟨0, none, [], none⟩]
    block_stack := [⟨0, "catch", 10, some 11, none, 0⟩]
    unwind_reason := some UNWIND_EXCEPTION
    instruction_ptr := 99
    next_fid := 1
    next_bid := 1
    input := [] }

theorem c1_exception_unwind_witness :
    (∃ dropped, c1State.function_stack = dropped ++ [⟨0, none, [], none⟩] ∧
        ∀ g ∈ dropped, g.fid ≠ 0) ∧
    (∃ f fs3, ([⟨0, none, [], none⟩] : List Frame) = f :: fs3 ∧ f.fid = 0) ∧
    ("catch" = "catch" →
      unwind_block c1State = .ok { c1State with
        function_stack := [⟨0, none, [], none⟩]
        block_stack := []
        unwind_reason := none
        instruction_ptr := 10 }) ∧
    ("catch" = "defer" →
      unwind_block c1State = .ok { c1State with
        function_stack := [⟨0, none, [], none⟩]
        instruction_ptr := 10 }) ∧
    ("catch" ≠ "catch" → "catch" ≠ "defer" →
      unwind_block c1State = .error "unexpected block type") :=
  c1_exception_unwind c1State ⟨0, "catch", 10, some 11, none, 0⟩ []
    [⟨0, none, [], none⟩] rfl rfl rfl

/-- C3: A thrown exception is recoverable exactly when a Catch block
exists anywhere on the Block Stack at throw time: with none, the throw
is the fatal "unhandled exception" engine fault; with one, control
transfers to the exception-unwind algorithm with reason Exception. -/
theorem c3_throw_fatal_iff_no_catch (code : List Cell) (s : VM)
    (hop : code[s.instruction_ptr]? = some (.int OP_THROW)) :
    (last_block "catch" s.block_stack = none →
      step code s = .error "no exception handler found") ∧
    (last_block "catch" s.block_stack ≠ none →
      step code s =
        (unwind_block { s with unwind_reason := some UNWIND_EXCEPTION }).map
          StepResult.cont) := by
  have hstep : step code s = op_throw s := by
    unfold step
    rw [hop]
    rfl
  constructor
  · intro hnc
    rw [hstep]
    unfold op_throw
    rw [hnc]
  · intro hc
    rcases hlc : last_block "catch" s.block_stack with _ | c
    · exact absurd hlc hc
    · rw [hstep]
      unfold op_throw
      rw [hlc]

/-- A one-instruction program consisting only of `OP_THROW`. -/
def c3Code : List Cell := [.int 11]

/-- Initial-like state about to execute the `OP_THROW` of `c3Code`
with an empty block stack. -/
def c3State : VM :=
  { data_stack := []
    function_stack := [⟨0, none, [], none⟩]
    block_stack := []
    unwind_reason := none
    instruction_ptr := 0
    next_fid := 1
    next_bid := 0
    input := [] }

theorem c3_throw_fatal_iff_no_catch_witness :
    (last_block "catch" c3State.block_stack = none →
      step c3Code c3State = .error "no exception handler found") ∧
    (last_block "catch" c3State.block_stack ≠ none →
      step c3Code c3State =
        (unwind_block
          { c3State with unwind_reason := some UNWIND_EXCEPTION }).map
          StepResult.cont) :=
  c3_throw_fatal_iff_no_catch c3Code c3State rfl

/-- C5: Defer frame isolation on return. When a Return unwind finds the
nearest Defer owned by an outer frame, the returning frame's own blocks
are discarded, the frame is popped, the instruction pointer is set to
its return_address and the reason is cleared; the outer Defer is not
activated — it remains on the block stack, pending. -/
theorem c5_defer_frame_isolation (s : VM) (b0 d : Block) (bs : List Block)
    (f : Frame) (fs : List Frame) (r : Nat)
    (hbs : s.block_stack = b0 :: bs) (hfs : s.function_stack = f :: fs)
    (hr : s.unwind_reason = some UNWIND_RETURN)
    (hld : last_block "defer" s.block_stack = some d)
    (houter : d.owner_fid ≠ f.fid) (hra : f.return_address = some r) :
    unwind_block s = .ok { s with
      instruction_ptr := r
      unwind_reason := none
      function_stack := fs
      block_stack :=
        s.block_stack.dropWhile (fun b => b.owner_fid == f.fid) } ∧
    d ∈ s.block_stack.dropWhile (fun b => b.owner_fid == f.fid) := by
  refine ⟨ub_ret_defer_outer hbs hfs hr hld houter hra, ?_⟩
  have hmem : d ∈ s.block_stack := List.mem_of_find?_eq_some hld
  exact mem_dropWhile_of_mem hmem (by simp [houter])

/-- Machine state for the C5 witness: inner frame (serial 1) returning
while the only defer belongs to the root frame (serial 0). -/
def c5State : VM :=
  { data_stack := []
    function_stack := [⟨1, some 7, [], none⟩, ⟨0, none, [], none⟩]
    block_stack := [⟨1, "catch", 8, some 9, none, 1⟩,
                    ⟨0, "defer", 4, some 5, none, 0⟩]
    unwind_reason := some UNWIND_RETURN
    instruction_ptr := 99
    next_fid := 2
    next_bid := 2
    input := [] }

theorem c5_defer_frame_isolation_witness :
    unwind_block c5State = .ok { c5State with
      instruction_ptr := 7
      unwind_reason := none
      function_stack := [⟨0, none, [], none⟩]
      block_stack :=
        c5State.block_stack.dropWhile (fun b => b.owner_fid == 1) } ∧
    (⟨0, "defer", 4, some 5, none, 0⟩ : Block) ∈
      c5State.block_stack.dropWhile (fun b => b.owner_fid == 1) :=
  c5_defer_frame_isolation c5State ⟨1, "catch", 8, some 9, none, 1⟩
    ⟨0, "defer", 4, some 5, none, 0⟩ [⟨0, "defer", 4, some 5, none, 0⟩]
    ⟨1, some 7, [], none⟩ [⟨0, none, [], none⟩] 7
    rfl rfl rfl rfl (by decide) rfl

/-- Machine state exercising the Return-unwind branch with no defer
anywhere: an inner frame (serial 1) returning with one abandoned catch
block of its own and no defer on the whole block stack. -/
def c2State : VM :=
  { data_stack := []
    function_stack := [⟨1, some 7, [], none⟩, ⟨0, none, [], none⟩]
    block_stack := [⟨0, "catch", 3, some 4, none, 1⟩]
    unwind_reason := some UNWIND_RETURN
    instruction_ptr := 99
    next_fid := 2
    next_bid := 1
    input := [] }

/-- C2: Return unwind with no Defer anywhere. The code does discard the
returning frame's blocks, pop the frame and jump to its return
address, but — contrary to the claim and to the spec's own invariant
("reason is never left set once an unwind step completes without
requesting another step") — the no-defer branch of `unwind_block`
(source lines 210-215) does NOT clear `unwind_reason`: it stays
Return. This theorem evaluates the engine at a concrete such state and
exhibits the leftover reason. -/
theorem c2_return_no_defer_keeps_reason :
    unwind_block c2State = .ok { c2State with
      block_stack := []
      instruction_ptr := 7
      function_stack := [⟨0, none, [], none⟩] } ∧
    ({ c2State with
      block_stack := []
      instruction_ptr := 7
      function_stack := [⟨0, none, [], none⟩] } : VM).unwind_reason =
        some UNWIND_RETURN :=
  ⟨rfl, rfl⟩

/-- A one-instruction program consisting only of `OP_RET`. -/
def c6Code : List Cell := [.int 13]

/-- State about to execute `OP_RET`: the top (only) block is owned by
the root frame (serial 0), not by the returning frame (serial 1), and
the returning frame's `block_marker` is `none`. -/
def c6State : VM :=
  { data_stack := []
    function_stack := [⟨1, some 7, [], none⟩, ⟨0, none, [], none⟩]
    block_stack := [⟨0, "catch", 5, some 6, none, 0⟩]
    unwind_reason := none
    instruction_ptr := 0
    next_fid := 2
    next_bid := 1
    input := [] }

/-- C6 (counterexample): the claim says the return operation begins a
Return unwind iff the top block's `owner_frame` is the current frame,
and otherwise pops the frame directly without any unwinding machinery.
At `c6State` the top block's owner (serial 0) is NOT the current frame
(serial 1), yet the code enters the unwinding machinery — observable
because the step leaves `unwind_reason = some UNWIND_RETURN`, which a
direct pop (which never touches `unwind_reason`, here `none`) cannot
produce. The code's actual test compares the top block against the
frame's `block_marker`, not against its owner. -/
theorem c6_ret_dispatch_counterexample :
    (Block.mk 0 "catch" 5 (some 6) none 0).owner_fid ≠
      (Frame.mk 1 (some 7) [] none).fid ∧
    c6State.block_stack = [⟨0, "catch", 5, some 6, none, 0⟩] ∧
    c6State.function_stack.head? = some ⟨1, some 7, [], none⟩ ∧
    c6State.unwind_reason = none ∧
    step c6Code c6State = .ok (.cont { c6State with
      block_stack := [⟨0, "catch", 5, some 6, none, 0⟩]
      instruction_ptr := 7
      function_stack := [⟨0, none, [], none⟩]
      unwind_reason := some UNWIND_RETURN }) :=
  ⟨by decide, rfl, rfl, rfl, rfl⟩

/-- C6 (amended): for every machine state in which the return operation
executes with a live frame, it begins a Return unwind if and only if
the Block Stack is non-empty and its topmost block is NOT the block
recorded as the returning frame's `block_marker`; otherwise it pops the
frame directly and jumps to its return address without invoking the
unwinding machinery. -/
theorem c6_ret_dispatch_amended (code : List Cell) (s : VM) (f : Frame)
    (fs : List Frame) (r : Nat)
    (hop : code[s.instruction_ptr]? = some (.int OP_RET))
    (hfs : s.function_stack = f :: fs)
    (hra : f.return_address = some r) :
    ((match s.block_stack with
      | [] => false
      | top_block :: _ => f.block_marker != some top_block.bid) = true →
      step code s =
        (unwind_block { s with unwind_reason := some UNWIND_RETURN }).map
          StepResult.cont) ∧
    ((match s.block_stack with
      | [] => false
      | top_block :: _ => f.block_marker != some top_block.bid) = false →
      step code s =
        .ok (.cont { s with function_stack := fs, instruction_ptr := r })) := by
  have hstep : step code s = op_ret s := by
    unfold step
    rw [hop]
    rfl
  rw [hstep, op_ret_eq hfs]
  constructor
  · intro hcond
    rw [if_pos hcond]
  · intro hcond
    rw [if_neg (by rw [hcond]; exact Bool.false_ne_true)]
    rw [hra]

theorem c6_ret_dispatch_amended_witness :
    ((match c6State.block_stack with
      | [] => false
      | top_block :: _ =>
        (Frame.mk 1 (some 7) [] none).block_marker != some top_block.bid) =
          true →
      step c6Code c6State =
        (unwind_block
          { c6State with unwind_reason := some UNWIND_RETURN }).map
          StepResult.cont) ∧
    ((match c6State.block_stack with
      | [] => false
      | top_block :: _ =>
        (Frame.mk 1 (some 7) [] none).block_marker != some top_block.bid) =
          false →
      step c6Code c6State =
        .ok (.cont { c6State with
          function_stack := [⟨0, none, [], none⟩]
          instruction_ptr := 7 })) :=
  c6_ret_dispatch_amended c6Code c6State ⟨1, some 7, [], none⟩
    [⟨0, none, [], none⟩] 7 rfl rfl rfl

/-- C7: Explicit scope exit with no unwind in progress. If the topmost
Block is a Catch, `OP_UNWIND` pops it and jumps to its resume
(continue) offset; if it is a Defer, `OP_UNWIND` jumps to its handler
offset keeping the block, and — since the reason stays none — the
subsequent `OP_DEFERCONTINUE` (here at state `s2`, with another block
below so the arity check passes) pops it and jumps to its resume
offset instead of re-entering the unwinding algorithm. In particular a
Catch region exited without a throw reaches its resume address with
the Catch block removed. -/
theorem c7_scope_exit (code : List Cell) (s s2 : VM) (b0 : Block)
    (bs : List Block) (r : Nat)
    (hbs : s.block_stack = b0 :: bs)
    (hco : b0.continue_offset = some r)
    (hop : code[s.instruction_ptr]? = some (.int OP_UNWIND))
    (hbs2 : s2.block_stack = b0 :: bs) (hne : bs ≠ [])
    (hr2 : s2.unwind_reason = none)
    (hop2 : code[s2.instruction_ptr]? = some (.int OP_DEFERCONTINUE)) :
    (b0.block_type = "catch" →
      step code s =
        .ok (.cont { s with block_stack := bs, instruction_ptr := r })) ∧
    (b0.block_type = "defer" →
      step code s =
        .ok (.cont { s with instruction_ptr := b0.handler_offset }) ∧
      step code s2 =
        .ok (.cont { s2 with block_stack := bs, instruction_ptr := r })) := by
  have hstep : step code s = op_unwind s := by
    unfold step
    rw [hop]
    rfl
  have hstep2 : step code s2 = op_defercontinue s2 := by
    unfold step
    rw [hop2]
    rfl
  rcases bs with _ | ⟨b1, bs1⟩
  · exact absurd rfl hne
  constructor
  · intro hk
    rw [hstep]
    unfold op_unwind
    simp [hbs, hk, hco]
  · intro hk
    constructor
    · rw [hstep]
      unfold op_unwind
      simp [hbs, hk]
    · rw [hstep2, op_defercontinue_eq hbs2]
      rw [if_neg (by simp [hr2])]
      rw [hco]

/-- A program with `OP_UNWIND` at offset 0 and `OP_DEFERCONTINUE` at
offset 1, for the C7 witness. -/
def c7Code : List Cell := [.int 9, .int 10]

/-- State about to exit a defer region explicitly: a defer block on top
of a catch block, both owned by the root frame, no unwind pending. -/
def c7State : VM :=
  { data_stack := []
    function_stack := [⟨0, none, [], none⟩]
    block_stack := [⟨1, "defer", 4, some 6, none, 0⟩,
                    ⟨0, "catch", 8, some 9, none, 0⟩]
    unwind_reason := none
    instruction_ptr := 0
    next_fid := 1
    next_bid := 2
    input := [] }

theorem c7_scope_exit_witness :
    ("defer" = "catch" →
      step c7Code c7State =
        .ok (.cont { c7State with
          block_stack := [⟨0, "catch", 8, some 9, none, 0⟩]
          instruction_ptr := 6 })) ∧
    ("defer" = "defer" →
      step c7Code c7State =
        .ok (.cont { c7State with instruction_ptr := 4 }) ∧
      step c7Code { c7State with instruction_ptr := 1 } =
        .ok (.cont { { c7State with instruction_ptr := 1 } with
          block_stack := [⟨0, "catch", 8, some 9, none, 0⟩]
          instruction_ptr := 6 })) :=
  c7_scope_exit c7Code c7State { c7State with instruction_ptr := 1 }
    ⟨1, "defer", 4, some 6, none, 0⟩ [⟨0, "catch", 8, some 9, none, 0⟩] 6
    rfl rfl rfl rfl (by decide) rfl rfl

/-- C9: the set-up-catch operation carries two inline operands but
advances the instruction pointer by only 2, one less than its operand
count; the leftover resume-label cell is then skipped by the fetch
loop's label fallback, so the effective advance over set-up-catch is 3
— the same net advance that set-up-defer performs explicitly in one
step (state `s2`). -/
theorem c9_setupcatch_operand_advance (code : List Cell) (s s2 : VM)
    (hl rl : String) (ho ro : Nat) (f f2 : Frame) (fs fs2 : List Frame)
    (hop : code[s.instruction_ptr]? = some (.int OP_SETUPCATCH))
    (h1 : code[s.instruction_ptr + 1]? = some (.str hl))
    (h2 : code[s.instruction_ptr + 2]? = some (.str rl))
    (hh : resolve_label code hl = some ho)
    (hr : resolve_label code rl = some ro)
    (hfs : s.function_stack = f :: fs)
    (hop2 : code[s2.instruction_ptr]? = some (.int OP_SETUPDEFER))
    (h12 : code[s2.instruction_ptr + 1]? = some (.str hl))
    (h22 : code[s2.instruction_ptr + 2]? = some (.str rl))
    (hfs2 : s2.function_stack = f2 :: fs2) :
    step code s = .ok (.cont { s with
      block_stack := ⟨s.next_bid, "catch", ho, some ro,
        (last_block "catch" s.block_stack).map Block.bid, f.fid⟩ ::
          s.block_stack
      next_bid := s.next_bid + 1
      instruction_ptr := s.instruction_ptr + 2 }) ∧
    step code { s with
      block_stack := ⟨s.next_bid, "catch", ho, some ro,
        (last_block "catch" s.block_stack).map Block.bid, f.fid⟩ ::
          s.block_stack
      next_bid := s.next_bid + 1
      instruction_ptr := s.instruction_ptr + 2 } =
      .ok (.cont { s with
        block_stack := ⟨s.next_bid, "catch", ho, some ro,
          (last_block "catch" s.block_stack).map Block.bid, f.fid⟩ ::
            s.block_stack
        next_bid := s.next_bid + 1
        instruction_ptr := s.instruction_ptr + 3 }) ∧
    step code s2 = .ok (.cont { s2 with
      block_stack := ⟨s2.next_bid, "defer", ho, some ro,
        (last_block "defer" s2.block_stack).map Block.bid, f2.fid⟩ ::
          s2.block_stack
      next_bid := s2.next_bid + 1
      instruction_ptr := s2.instruction_ptr + 3 }) := by
  refine ⟨?_, ?_, ?_⟩
  · have hstep : step code s = op_setupcatch code s := by
      unfold step
      rw [hop]
      rfl
    rw [hstep]
    unfold op_setupcatch push_block
    simp [h1, h2, hfs, hh, hr, Except.map]
  · have hskip : ∀ t : VM, code[t.instruction_ptr]? = some (.str rl) →
        step code t = .ok (.cont { t with
          instruction_ptr := t.instruction_ptr + 1 }) := by
      intro t ht
      unfold step
      rw [ht]
    rw [hskip _ (by simpa using h2)]
  · have hstep2 : step code s2 = op_setupdefer code s2 := by
      unfold step
      rw [hop2]
      rfl
    rw [hstep2]
    unfold op_setupdefer push_block
    simp [h12, h22, hfs2, hh, hr, Except.map]

/-- A program for the C9 witness: `OP_SETUPCATCH H R` at offset 0,
`OP_SETUPDEFER H R` at offset 3, then the two label definitions. -/
def c9Code : List Cell :=
  [.int 7, .str "H", .str "R", .int 8, .str "H", .str "R",
   .str ".H", .str ".R"]

/-- Initial state for the C9 witness, positioned at the
`OP_SETUPCATCH`. -/
def c9State : VM := initVM []

theorem c9_setupcatch_operand_advance_witness :
    step c9Code c9State = .ok (.cont { c9State with
      block_stack := [⟨0, "catch", 6, some 7, none, 0⟩]
      next_bid := 1
      instruction_ptr := 2 }) ∧
    step c9Code { c9State with
      block_stack := [⟨0, "catch", 6, some 7, none, 0⟩]
      next_bid := 1
      instruction_ptr := 2 } =
      .ok (.cont { c9State with
        block_stack := [⟨0, "catch", 6, some 7, none, 0⟩]
        next_bid := 1
        instruction_ptr := 3 }) ∧
    step c9Code { c9State with instruction_ptr := 3 } =
      .ok (.cont { { c9State with instruction_ptr := 3 } with
        block_stack := [⟨0, "defer", 6, some 7, none, 0⟩]
        next_bid := 1
        instruction_ptr := 6 }) :=
  c9_setupcatch_operand_advance c9Code c9State
    { c9State with instruction_ptr := 3 } "H" "R" 6 7
    ⟨0, none, [.int 0, .int 0, .int 0, .int 0], none⟩
    ⟨0, none, [.int 0, .int 0, .int 0, .int 0], none⟩ [] []
    rfl rfl rfl rfl rfl rfl rfl rfl rfl rfl

/-! ### The unwinding machinery never touches the operand stack -/

theorem data_unwind_block {s s2 : VM} (hu : unwind_block s = .ok s2) :
    s2.data_stack = s.data_stack := by
  rcases hbs : s.block_stack with _ | ⟨b0, bs⟩
  · rw [ub_bs_nil hbs] at hu; cases hu
  rcases hfs : s.function_stack with _ | ⟨f, fs'⟩
  · rw [ub_fs_nil hbs hfs] at hu; cases hu
  by_cases hexc : s.unwind_reason = some UNWIND_EXCEPTION
  · rcases hpop : pop_frames_until_owner b0.owner_fid (f :: fs') with _ | fs2
    · rw [ub_exc_popfail hbs hfs hexc hpop] at hu; cases hu
    by_cases hk1 : b0.block_type = "catch"
    · rw [ub_exc_catch hbs hfs hexc hpop hk1, Except.ok.injEq] at hu
      subst hu; rfl
    by_cases hk2 : b0.block_type = "defer"
    · rw [ub_exc_defer hbs hfs hexc hpop hk2, Except.ok.injEq] at hu
      subst hu; rfl
    · rw [ub_exc_bad hbs hfs hexc hpop hk1 hk2] at hu; cases hu
  by_cases hret : s.unwind_reason = some UNWIND_RETURN
  · rcases hld : last_block "defer" s.block_stack with _ | d
    · rcases hra : f.return_address with _ | r
      · have herr : unwind_block s = .error "invalid return address" := by
          unfold unwind_block
          simp [hbs, hfs, hret, UNWIND_EXCEPTION, UNWIND_RETURN,
            hbs ▸ hld, hra]
        rw [herr] at hu; cases hu
      · rw [ub_ret_nodefer hbs hfs hret hld hra, Except.ok.injEq] at hu
        subst hu; rfl
    · by_cases hown : d.owner_fid = f.fid
      · rw [ub_ret_defer_own hbs hfs hret hld hown, Except.ok.injEq] at hu
        subst hu; rfl
      · rcases hra : f.return_address with _ | r
        · have herr : unwind_block s = .error "invalid return address" := by
            unfold unwind_block
            simp [hbs, hfs, hret, UNWIND_EXCEPTION, UNWIND_RETURN,
              hbs ▸ hld, hown, hra]
          rw [herr] at hu; cases hu
        · rw [ub_ret_defer_outer hbs hfs hret hld hown hra,
              Except.ok.injEq] at hu
          subst hu; rfl
  · rw [ub_no_reason hbs hfs hexc hret] at hu; cases hu

theorem data_op_unwind {s s2 : VM} (hs : op_unwind s = .ok (.cont s2)) :
    s2.data_stack = s.data_stack := by
  rcases hbs : s.block_stack with _ | ⟨b0, bs⟩
  · unfold op_unwind at hs; simp [hbs] at hs
  by_cases hk1 : b0.block_type = "catch"
  · rcases hco : b0.continue_offset with _ | r
    · unfold op_unwind at hs; simp [hbs, hk1, hco] at hs
    · unfold op_unwind at hs
      simp [hbs, hk1, hco] at hs
      subst hs; rfl
  by_cases hk2 : b0.block_type = "defer"
  · unfold op_unwind at hs
    simp [hbs, hk1, hk2] at hs
    subst hs; rfl
  · unfold op_unwind at hs; simp [hbs, hk1, hk2] at hs

theorem data_op_defercontinue {s s2 : VM}
    (hs : op_defercontinue s = .ok (.cont s2)) :
    s2.data_stack = s.data_stack := by
  rcases hbs : s.block_stack with _ | ⟨b0, bs⟩
  · unfold op_defercontinue at hs; simp [hbs] at hs
  rcases bs with _ | ⟨b1, bs1⟩
  · unfold op_defercontinue at hs; simp [hbs] at hs
  rw [op_defercontinue_eq hbs] at hs
  by_cases hr : s.unwind_reason = none
  · rw [if_neg (by simp [hr])] at hs
    rcases hco : b0.continue_offset with _ | r
    · simp [hco] at hs
    · simp [hco] at hs
      subst hs; rfl
  · rw [if_pos (by simp [hr])] at hs
    rcases hub : unwind_block { s with block_stack := b1 :: bs1 }
      with e | s3 <;> rw [hub] at hs
    · cases hs
    · simp only [Except.map, Except.ok.injEq, StepResult.cont.injEq] at hs
      subst hs
      have hd2 := data_unwind_block hub
      exact hd2

theorem data_op_ret {s s2 : VM} (hs : op_ret s = .ok (.cont s2)) :
    s2.data_stack = s.data_stack := by
  rcases hfs : s.function_stack with _ | ⟨f, fs⟩
  · unfold op_ret at hs; simp [hfs] at hs
  rw [op_ret_eq hfs] at hs
  by_cases hcond : (match s.block_stack with
      | [] => false
      | top_block :: _ => f.block_marker != some top_block.bid) = true
  · rw [if_pos hcond] at hs
    rcases hub : unwind_block { s with unwind_reason := some UNWIND_RETURN }
      with e | s3 <;> rw [hub] at hs
    · cases hs
    · simp only [Except.map, Except.ok.injEq, StepResult.cont.injEq] at hs
      subst hs
      have hd2 := data_unwind_block hub
      exact hd2
  · rw [if_neg hcond] at hs
    rcases hra : f.return_address with _ | r
    · simp [hra] at hs
    · simp [hra] at hs
      subst hs; rfl

theorem data_op_throw {s s2 : VM} (hs : op_throw s = .ok (.cont s2)) :
    s2.data_stack = s.data_stack := by
  rcases hlc : last_block "catch" s.block_stack with _ | c
  · unfold op_throw at hs; simp [hlc] at hs
  · unfold op_throw at hs
    simp only [hlc] at hs
    rcases hub : unwind_block { s with unwind_reason := some UNWIND_EXCEPTION }
      with e | s3 <;> rw [hub] at hs
    · cases hs
    · simp only [Except.map, Except.ok.injEq, StepResult.cont.injEq] at hs
      subst hs
      have hd2 := data_unwind_block hub
      exact hd2

theorem data_op_call {code : List Cell} {s s2 : VM}
    (hs : op_call code s = .ok (.cont s2)) :
    s2.data_stack = s.data_stack := by
  rcases hc : code[s.instruction_ptr + 1]? with _ | c
  · unfold op_call at hs; simp [hc] at hs
  rcases c with n | lbl
  · unfold op_call at hs; simp [hc] at hs
  rcases hro : resolve_label code lbl with _ | off
  · unfold op_call at hs; simp [hc, hro] at hs
  · unfold op_call at hs
    simp [hc, hro] at hs
    subst hs; rfl

/-- C10: Unwinding leaves the Operand Stack untouched. Every step of
the unwinding algorithm, and the throw, return, scope-exit,
defer-continue and call operations, neither push to nor pop from the
operand (data) stack; in particular, when a throw selects a Catch
directly (the topmost block is a Catch), the operand stack at the
first instruction of the handler is exactly the operand stack at the
throw — the only channel by which the thrown value reaches its
handler. -/
theorem c10_unwinding_preserves_operand_stack :
    (∀ s s2 : VM, unwind_block s = .ok s2 → s2.data_stack = s.data_stack) ∧
    (∀ (code : List Cell) (s s2 : VM) (n : Int),
      code[s.instruction_ptr]? = some (.int n) →
      n = OP_THROW ∨ n = OP_RET ∨ n = OP_UNWIND ∨ n = OP_DEFERCONTINUE ∨
        n = OP_CALL →
      step code s = .ok (.cont s2) → s2.data_stack = s.data_stack) ∧
    (∀ (code : List Cell) (s s2 : VM) (b0 : Block) (bs : List Block),
      code[s.instruction_ptr]? = some (.int OP_THROW) →
      s.block_stack = b0 :: bs → b0.block_type = "catch" →
      step code s = .ok (.cont s2) →
      s2.data_stack = s.data_stack ∧
        s2.instruction_ptr = b0.handler_offset) := by
  refine ⟨fun s s2 hu => data_unwind_block hu, ?_, ?_⟩
  · intro code s s2 n hop hn hs
    rcases hn with rfl | rfl | rfl | rfl | rfl
    · have hd : step code s = op_throw s := by
        unfold step; rw [hop]; rfl
      rw [hd] at hs
      exact data_op_throw hs
    · have hd : step code s = op_ret s := by
        unfold step; rw [hop]; rfl
      rw [hd] at hs
      exact data_op_ret hs
    · have hd : step code s = op_unwind s := by
        unfold step; rw [hop]; rfl
      rw [hd] at hs
      exact data_op_unwind hs
    · have hd : step code s = op_defercontinue s := by
        unfold step; rw [hop]; rfl
      rw [hd] at hs
      exact data_op_defercontinue hs
    · have hd : step code s = op_call code s := by
        unfold step; rw [hop]; rfl
      rw [hd] at hs
      exact data_op_call hs
  · intro code s s2 b0 bs hop hbs hk hs
    have hd : step code s = op_throw s := by
      unfold step; rw [hop]; rfl
    rw [hd] at hs
    have hlc : last_block "catch" s.block_stack = some b0 := by
      rw [hbs]
      exact List.find?_cons_of_pos _ (by simp [hk])
    unfold op_throw at hs
    rw [hlc] at hs
    have hbs2 : ({ s with unwind_reason := some UNWIND_EXCEPTION } : VM).block_stack =
        b0 :: bs := hbs
    rcases hfs : s.function_stack with _ | ⟨f, fs'⟩
    · have hfs2 : ({ s with unwind_reason := some UNWIND_EXCEPTION } : VM).function_stack =
          [] := hfs
      rw [ub_fs_nil hbs2 hfs2] at hs; cases hs
    have hfs2 : ({ s with unwind_reason := some UNWIND_EXCEPTION } : VM).function_stack =
        f :: fs' := hfs
    rcases hpop : pop_frames_until_owner b0.owner_fid (f :: fs') with _ | fs2
    · rw [ub_exc_popfail hbs2 hfs2 rfl hpop] at hs; cases hs
    · rw [ub_exc_catch hbs2 hfs2 rfl hpop hk] at hs
      simp only [Except.map, Except.ok.injEq, StepResult.cont.injEq] at hs
      subst hs
      exact ⟨rfl, rfl⟩

theorem c10_unwinding_preserves_operand_stack_witness :
    ({ c1State with
      function_stack := [⟨0, none, [], none⟩]
      block_stack := []
      unwind_reason := none
      instruction_ptr := 10 } : VM).data_stack = c1State.data_stack :=
  c10_unwinding_preserves_operand_stack.1 c1State
    { c1State with
      function_stack := [⟨0, none, [], none⟩]
      block_stack := []
      unwind_reason := none
      instruction_ptr := 10 } rfl

/-! ### The return-unwind / defer-continue cycle and its LIFO order -/

theorem find?_decomp {α : Type} {p : α → Bool} :
    ∀ {l : List α} {d : α}, l.find? p = some d →
      ∃ a t, l = a ++ d :: t ∧ ∀ x ∈ a, p x = false := by
  intro l
  induction l with
  | nil => intro d h; simp at h
  | cons x xs ih =>
    intro d h
    by_cases hx : p x = true
    · rw [List.find?_cons_of_pos _ hx, Option.some.injEq] at h
      subst h
      exact ⟨[], xs, rfl, by simp⟩
    · rw [List.find?_cons_of_neg _ hx] at h
      obtain ⟨a, t, heq, ha⟩ := ih h
      refine ⟨x :: a, t, by simp [heq], ?_⟩
      intro y hy
      rcases List.mem_cons.mp hy with rfl | hy
      · exact eq_false_of_ne_true hx
      · exact ha y hy

theorem dropWhile_ne_mem {α : Type} [DecidableEq α] :
    ∀ {l : List α} {d : α}, d ∈ l →
      ∃ t, l.dropWhile (fun b => b != d) = d :: t := by
  intro l
  induction l with
  | nil => simp
  | cons x xs ih =>
    intro d hd
    by_cases hx : x = d
    · subst hx
      exact ⟨xs, by simp [List.dropWhile_cons]⟩
    · rcases List.mem_cons.mp hd with heq | hd2
      · exact absurd heq.symm hx
      · obtain ⟨t, ht⟩ := ih hd2
        refine ⟨t, ?_⟩
        rw [List.dropWhile_cons, if_pos (by simpa using hx)]
        exact ht

/-- Derived driver for the return-unwind / defer-continue cycle: run
the unwinding engine, and whenever it activates a defer of the current
frame (the reason is still Return and the call stack is unchanged),
record the handler offset that was entered and perform the block pop
that `OP_DEFERCONTINUE` does at the end of the handler body (source
lines 329-335, including its two-entry arity check) before re-entering
the engine. Returns the sequence of activated handler offsets and the
final engine outcome. The fuel only bounds the recursion; the theorems
supply enough of it. -/
def return_unwind_trace : Nat → VM → List Nat × Except String VM
  | 0, _ => ([], .error "out of fuel")
  | fuel+1, s =>
    match unwind_block s with
    | .error e => ([], .error e)
    | .ok s2 =>
      if s2.unwind_reason = some UNWIND_RETURN ∧
          s2.function_stack.length = s.function_stack.length then
        if s2.block_stack.length < 2 then
          ([s2.instruction_ptr], .error "empty block stack")
        else
          let rest := return_unwind_trace fuel
            { s2 with block_stack := s2.block_stack.tail }
          (s2.instruction_ptr :: rest.1, rest.2)
      else ([], .ok s2)

theorem return_unwind_trace_succ (fuel : Nat) (s : VM) :
    return_unwind_trace (fuel + 1) s =
      match unwind_block s with
      | .error e => ([], .error e)
      | .ok s2 =>
        if s2.unwind_reason = some UNWIND_RETURN ∧
            s2.function_stack.length = s.function_stack.length then
          if s2.block_stack.length < 2 then
            ([s2.instruction_ptr], .error "empty block stack")
          else
            (s2.instruction_ptr ::
              (return_unwind_trace fuel
                { s2 with block_stack := s2.block_stack.tail }).1,
             (return_unwind_trace fuel
                { s2 with block_stack := s2.block_stack.tail }).2)
        else ([], .ok s2) := rfl

theorem trace_stop_frame_pop {fuel : Nat} {s s2 : VM}
    (hub : unwind_block s = .ok s2)
    (hlen : s2.function_stack.length ≠ s.function_stack.length) :
    return_unwind_trace (fuel + 1) s = ([], .ok s2) := by
  rw [return_unwind_trace_succ]
  simp only [hub]
  rw [if_neg (by rintro ⟨_, hc⟩; exact hlen hc)]

theorem trace_stop_reason {fuel : Nat} {s s2 : VM}
    (hub : unwind_block s = .ok s2)
    (hre : s2.unwind_reason ≠ some UNWIND_RETURN) :
    return_unwind_trace (fuel + 1) s = ([], .ok s2) := by
  rw [return_unwind_trace_succ]
  simp only [hub]
  rw [if_neg (by rintro ⟨hc, _⟩; exact hre hc)]

theorem trace_step_defer (u : VM) {fuel : Nat} {s s2 : VM}
    (hub : unwind_block s = .ok s2)
    (hre : s2.unwind_reason = some UNWIND_RETURN)
    (hlen : s2.function_stack.length = s.function_stack.length)
    (hblen : ¬s2.block_stack.length < 2)
    (h3 : u = { s2 with block_stack := s2.block_stack.tail }) :
    return_unwind_trace (fuel + 1) s =
      (s2.instruction_ptr :: (return_unwind_trace fuel u).1,
       (return_unwind_trace fuel u).2) := by
  subst h3
  rw [return_unwind_trace_succ]
  simp only [hub]
  rw [if_pos ⟨hre, hlen⟩, if_neg hblen]

/-- The LIFO trace lemma behind C4: if the block stack is `pre ++ rest`
with every block of `pre` owned by the returning frame and none of
`rest` owned by it, and `rest` is non-empty (so the defer-continue
arity check always passes), then the unwind/continue cycle activates
exactly the defer blocks of `pre`, top-down — i.e. in reverse order of
their creation — and ends with the frame popped, the instruction
pointer at its return address, and `rest` intact. -/
theorem c4_trace_aux : ∀ (fuel : Nat) (pre rest : List Block) (s : VM)
    (f : Frame) (fs : List Frame) (r : Nat),
    s.block_stack = pre ++ rest → s.function_stack = f :: fs →
    s.unwind_reason = some UNWIND_RETURN →
    (∀ b ∈ pre, b.owner_fid = f.fid) →
    (∀ b ∈ rest, b.owner_fid ≠ f.fid) →
    rest ≠ [] → f.return_address = some r → (pre ++ rest).Nodup →
    pre.length < fuel →
    ∃ s2, return_unwind_trace fuel s =
        ((pre.filter (fun b => b.block_type == "defer")).map
          Block.handler_offset, .ok s2) ∧
      s2.function_stack = fs ∧ s2.block_stack = rest ∧
      s2.instruction_ptr = r := by
  intro fuel
  induction fuel with
  | zero =>
    intro pre rest s f fs r _ _ _ _ _ _ _ _ hlt
    omega
  | succ fuel ih =>
    intro pre rest s f fs r hbs hfs hr hpre hrest hne hra hnd hlt
    obtain ⟨rh, rt, rfl⟩ : ∃ rh rt, rest = rh :: rt := by
      cases rest with
      | nil => exact absurd rfl hne
      | cons rh rt => exact ⟨rh, rt, rfl⟩
    rcases hfind : pre.find? (fun b => b.block_type == "defer") with _ | d
    · -- no defer among the frame's own blocks: one engine call finishes
      have hpnd : ∀ b ∈ pre, ¬(b.block_type == "defer") = true :=
        List.find?_eq_none.mp hfind
      have hfilter : pre.filter (fun b => b.block_type == "defer") = [] := by
        rw [List.filter_eq_nil_iff]
        exact hpnd
      have hdw : s.block_stack.dropWhile (fun b => b.owner_fid == f.fid) =
          rh :: rt := by
        rw [hbs]
        exact dropWhile_eq_cons_of (fun x hx => by simp [hpre x hx])
          (by simp [hrest rh (by simp)])
      obtain ⟨b0, bs0, hbscons⟩ : ∃ b0 bs0, s.block_stack = b0 :: bs0 := by
        rw [hbs]
        cases pre with
        | nil => exact ⟨rh, rt, rfl⟩
        | cons p0 pre0 => exact ⟨p0, pre0 ++ rh :: rt, rfl⟩
      rcases hfind2 : last_block "defer" s.block_stack with _ | d2
      · -- no defer anywhere: the no-defer branch (which leaves the
        -- reason set) completes the return; the cycle stops because
        -- the frame was popped
        have hub := ub_ret_nodefer hbscons hfs hr hfind2 hra
        rw [hdw] at hub
        rw [trace_stop_frame_pop hub (by rw [hfs]; simp)]
        refine ⟨{ s with
          block_stack := rh :: rt
          instruction_ptr := r
          function_stack := fs }, ?_, rfl, rfl, rfl⟩
        rw [hfilter]
        rfl
      · -- the nearest defer is in `rest`, owned by an outer frame
        have hd2k := List.find?_some (p := fun b : Block => b.block_type == "defer") hfind2
        have hd2rest : d2 ∈ rh :: rt := by
          have hd2mem : d2 ∈ s.block_stack := List.mem_of_find?_eq_some hfind2
          rw [hbs] at hd2mem
          rcases List.mem_append.mp hd2mem with hin | hin
          · exact absurd hd2k (hpnd d2 hin)
          · exact hin
        have hown : d2.owner_fid ≠ f.fid := hrest d2 hd2rest
        have hub := ub_ret_defer_outer hbscons hfs hr hfind2 hown hra
        rw [hdw] at hub
        rw [trace_stop_reason hub (by simp)]
        refine ⟨{ s with
          instruction_ptr := r
          unwind_reason := none
          function_stack := fs
          block_stack := rh :: rt }, ?_, rfl, rfl, rfl⟩
        rw [hfilter]
        rfl
    · -- the topmost defer of the frame activates first
      obtain ⟨a, pre1, hpre_eq, hand⟩ := find?_decomp hfind
      have hdk := List.find?_some (p := fun b : Block => b.block_type == "defer") hfind
      have hlast : last_block "defer" s.block_stack = some d := by
        rw [hbs, hpre_eq]
        have hassoc : (a ++ d :: pre1) ++ rh :: rt =
            a ++ d :: (pre1 ++ rh :: rt) := by simp
        rw [hassoc]
        exact find?_append_cons hand hdk
      have hdf : d.owner_fid = f.fid := hpre d (by rw [hpre_eq]; simp)
      have hnd_all : (a ++ d :: (pre1 ++ rh :: rt)).Nodup := by
        rw [hpre_eq] at hnd
        simpa [List.append_assoc] using hnd
      have hdnotina : d ∉ a := by
        intro hin
        have hdisj := (List.nodup_append.mp hnd_all).2.2
        exact hdisj hin (by simp)
      have hdw : s.block_stack.dropWhile (fun b => b != d) =
          d :: (pre1 ++ rh :: rt) := by
        rw [hbs, hpre_eq]
        have hassoc : (a ++ d :: pre1) ++ rh :: rt =
            a ++ d :: (pre1 ++ rh :: rt) := by simp
        rw [hassoc]
        refine dropWhile_eq_cons_of ?_ (by simp)
        intro x hx
        simp only [bne_iff_ne, ne_eq, decide_eq_true_eq]
        intro heq
        exact hdnotina (heq ▸ hx)
      obtain ⟨b0, bs0, hbscons⟩ : ∃ b0 bs0, s.block_stack = b0 :: bs0 := by
        rw [hbs, hpre_eq]
        cases a with
        | nil => exact ⟨d, pre1 ++ rh :: rt, by simp⟩
        | cons a0 a1 => exact ⟨a0, (a1 ++ d :: pre1) ++ rh :: rt, by simp⟩
      have hub := ub_ret_defer_own hbscons hfs hr hlast hdf
      rw [hdw] at hub
      rw [trace_step_defer
        { s with
          block_stack := pre1 ++ rh :: rt
          instruction_ptr := d.handler_offset }
        hub hr rfl
        (by simp only [List.length_cons, List.length_append]; omega) rfl]
      have hlt1 : pre1.length < fuel := by
        have hlen := congrArg List.length hpre_eq
        simp only [List.length_append, List.length_cons] at hlen
        omega
      obtain ⟨s2f, htr, hf2, hb2, hi2⟩ :=
        ih pre1 (rh :: rt)
          { s with
            block_stack := pre1 ++ rh :: rt
            instruction_ptr := d.handler_offset }
          f fs r rfl hfs hr
          (fun b hb => hpre b (by rw [hpre_eq]; simp [hb]))
          hrest (by simp) hra
          ((List.nodup_append.mp hnd_all).2.1).of_cons hlt1
      rw [htr]
      refine ⟨s2f, ?_, hf2, hb2, hi2⟩
      have hfiltereq : pre.filter (fun b => b.block_type == "defer") =
          d :: pre1.filter (fun b => b.block_type == "defer") := by
        rw [hpre_eq, List.filter_append, List.filter_cons_of_pos (p := fun b : Block => b.block_type == "defer") hdk,
          List.filter_eq_nil_iff.mpr (fun x hx => by simp [hand x hx])]
        rfl
      rw [hfiltereq]
      rfl

/-- C4: Return unwind with the nearest Defer owned by the returning
frame. First conjunct: the engine discards the blocks above that Defer
(abandoned Catch regions dropped without firing), sets the instruction
pointer to the Defer's handler_offset, and keeps the Defer block and
the frame on their stacks with the reason still Return. Second
conjunct: for Defer blocks set up in one frame in order D1..DN (so
stacked DN..D1 from the top), the return-unwind / defer-continue cycle
runs their bodies in order DN..D1, each completing via the continue
operation before the next begins, and finishes at the frame's return
address with the outer blocks intact. -/
theorem c4_return_defer_lifo :
    (∀ (s : VM) (b0 d : Block) (bs : List Block) (f : Frame)
        (fs : List Frame),
      s.block_stack = b0 :: bs → s.function_stack = f :: fs →
      s.unwind_reason = some UNWIND_RETURN →
      last_block "defer" s.block_stack = some d → d.owner_fid = f.fid →
      unwind_block s = .ok { s with
        block_stack := s.block_stack.dropWhile (fun b => b != d)
        instruction_ptr := d.handler_offset } ∧
      ∃ t, s.block_stack.dropWhile (fun b => b != d) = d :: t) ∧
    (∀ (fuel : Nat) (pre rest : List Block) (s : VM) (f : Frame)
        (fs : List Frame) (r : Nat),
      s.block_stack = pre ++ rest → s.function_stack = f :: fs →
      s.unwind_reason = some UNWIND_RETURN →
      (∀ b ∈ pre, b.owner_fid = f.fid) →
      (∀ b ∈ rest, b.owner_fid ≠ f.fid) →
      rest ≠ [] → f.return_address = some r → (pre ++ rest).Nodup →
      pre.length < fuel →
      ∃ s2, return_unwind_trace fuel s =
          ((pre.filter (fun b => b.block_type == "defer")).map
            Block.handler_offset, .ok s2) ∧
        s2.function_stack = fs ∧ s2.block_stack = rest ∧
        s2.instruction_ptr = r) := by
  constructor
  · intro s b0 d bs f fs hbs hfs hr hld hown
    refine ⟨ub_ret_defer_own hbs hfs hr hld hown, ?_⟩
    exact dropWhile_ne_mem (List.mem_of_find?_eq_some hld)
  · exact c4_trace_aux

/-- State for the C4 witness: frame serial 1 (return address 50)
returning with blocks D1 = defer(6), C = catch(8), D2 = defer(4) set
up in that order (so D2 on top), above a catch owned by the root. -/
def c4State : VM :=
  { data_stack := []
    function_stack := [⟨1, some 50, [], none⟩, ⟨0, none, [], none⟩]
    block_stack := [⟨2, "defer", 4, some 5, none, 1⟩,
                    ⟨1, "catch", 8, some 9, none, 1⟩,
                    ⟨0, "defer", 6, some 7, none, 1⟩,
                    ⟨3, "catch", 2, some 3, none, 0⟩]
    unwind_reason := some UNWIND_RETURN
    instruction_ptr := 99
    next_fid := 2
    next_bid := 4
    input := [] }

theorem c4_return_defer_lifo_witness :
    (unwind_block c4State = .ok { c4State with
      block_stack := c4State.block_stack.dropWhile
        (fun b => b != ⟨2, "defer", 4, some 5, none, 1⟩)
      instruction_ptr := 4 } ∧
    ∃ t, c4State.block_stack.dropWhile
        (fun b => b != ⟨2, "defer", 4, some 5, none, 1⟩) =
      ⟨2, "defer", 4, some 5, none, 1⟩ :: t) ∧
    (∃ s2, return_unwind_trace 4 c4State =
        (([⟨2, "defer", 4, some 5, none, 1⟩,
           ⟨1, "catch", 8, some 9, none, 1⟩,
           ⟨0, "defer", 6, some 7, none, 1⟩].filter
            (fun b => b.block_type == "defer")).map Block.handler_offset,
          .ok s2) ∧
      s2.function_stack = [⟨0, none, [], none⟩] ∧
      s2.block_stack = [⟨3, "catch", 2, some 3, none, 0⟩] ∧
      s2.instruction_ptr = 50) :=
  ⟨c4_return_defer_lifo.1 c4State ⟨2, "defer", 4, some 5, none, 1⟩
      ⟨2, "defer", 4, some 5, none, 1⟩
      [⟨1, "catch", 8, some 9, none, 1⟩,
       ⟨0, "defer", 6, some 7, none, 1⟩,
       ⟨3, "catch", 2, some 3, none, 0⟩]
      ⟨1, some 50, [], none⟩ [⟨0, none, [], none⟩]
      rfl rfl rfl rfl rfl,
   c4_return_defer_lifo.2 4
      [⟨2, "defer", 4, some 5, none, 1⟩,
       ⟨1, "catch", 8, some 9, none, 1⟩,
       ⟨0, "defer", 6, some 7, none, 1⟩]
      [⟨3, "catch", 2, some 3, none, 0⟩]
      c4State ⟨1, some 50, [], none⟩ [⟨0, none, [], none⟩] 50
      rfl rfl rfl (by decide) (by decide) (by decide) rfl (by decide)
      (by decide)⟩

end BlockUnwind
